import Mathlib

/-!
Verification of the line-lifecycle tracking and survival-statistics engine of
the halflife repository.

The repository contains two program variants that both implement the engine:
  * main.go (referred to below with the prefix main), and
  * an unnamed second variant (referred to below with the prefix p1) that
    carries the snapshot / survival-curve / half-life-crossing logic.

Timestamps and durations are modelled as rational numbers measured in days:
the Go code converts every duration with Sub(...).Hours() / 24, so a commit
timestamp is represented here directly by its (rational) day value, and all
float64 arithmetic is modelled as exact rational arithmetic.  Go maps keyed by
strings are modelled as association lists in insertion order; every quantity
the claims mention is independent of Go's randomized map iteration order
(lifetime lists are sorted before use, and the remaining aggregates are
order-insensitive counts/sums).
-/

/-- Whitespace test matching Go's unicode.IsSpace on ASCII input (space, tab,
newline, vertical tab, form feed, carriage return). -/
def isSpaceChar (c : Char) : Bool :=
  c = ' ' || c = '\t' || c = '\n' || c = '\x0b' || c = '\x0c' || c = '\r'

/-- Whether strings.TrimSpace(line) == "", i.e. every character is whitespace.
Lines satisfying this are excluded from tracking by both variants. -/
def isBlankLine (s : String) : Bool := s.data.all isSpaceChar

/-- Helper for splitLines: accumulates the current line (in reverse). -/
def splitLinesAux : List Char → List Char → List String
  | [], acc => [String.mk acc.reverse]
  | c :: cs, acc =>
    if c = '\n' then String.mk acc.reverse :: splitLinesAux cs []
    else splitLinesAux cs (c :: acc)

/-- Go's strings.Split(s, "\n"): splits on newline, keeping empty fragments
(so a trailing newline yields a final empty string, and splitting the empty
string yields one empty string). -/
def splitLines (s : String) : List String := splitLinesAux s.data []

/-- Go's strings.HasPrefix. -/
def strStarts (s p : String) : Bool := List.isPrefixOf p.data s.data

/-- Go's strings.HasSuffix. -/
def strEnds (s p : String) : Bool := List.isSuffixOf p.data s.data

/-- Go's strings.TrimPrefix(p, "*"): removes one leading star if present. -/
def trimStar (p : String) : String :=
  if strStarts p "*" then String.mk (p.data.drop 1) else p

/-- Modelled from the spec: glob-style matching of Go's path/filepath.Match
(an external standard-library collaborator of the engine; only its "*", "?"
and literal-character features, the ones the spec names, are modelled; no
claim exercises this fallback branch). -/
def globMatch : List Char → List Char → Bool
  | [], s => s.isEmpty
  | '*' :: ps, [] => globMatch ps []
  | '*' :: ps, c :: cs => globMatch ps (c :: cs) || globMatch ('*' :: ps) cs
  | '?' :: _, [] => false
  | '?' :: ps, _ :: cs => globMatch ps cs
  | _ :: _, [] => false
  | p :: ps, c :: cs => p = c && globMatch ps cs
termination_by ps s => (ps.length, s.length)

/-- Modelled from the spec: Go's path/filepath.Base (external standard
library): the last path component, with trailing slashes removed.  Go's
special cases for the empty path and the all-slash path are not modelled;
no claim exercises them. -/
def baseNameOf (s : String) : String :=
  let cs := s.data.reverse.dropWhile (fun c => c = '/')
  String.mk (cs.takeWhile (fun c => !(c == '/'))).reverse

/-- The p1 variant's matchesPattern: "*" matches everything; a "*."-pattern
is a suffix test; otherwise filepath.Match against the base name. -/
def matchesPattern (filename pattern : String) : Bool :=
  if pattern = "*" then true
  else if strStarts pattern "*." then strEnds filename (trimStar pattern)
  else globMatch pattern.data (baseNameOf filename).data

/-- main.go's inline file filter: strings.HasSuffix(path, strings.TrimPrefix(filePattern, "*")). -/
def mainFileMatch (path pattern : String) : Bool := strEnds path (trimStar pattern)

/-- Association-list lookup, modelling Go map indexing. -/
def lookupRec {κ α : Type} [DecidableEq κ] : List (κ × α) → κ → Option α
  | [], _ => none
  | (k, v) :: rest, key => if k = key then some v else lookupRec rest key

/-- Association-list assignment m[key] = v (replace or append), modelling Go
map assignment. -/
def setRec {κ α : Type} [DecidableEq κ] : List (κ × α) → κ → α → List (κ × α)
  | [], key, v => [(key, v)]
  | (k, w) :: rest, key, v =>
    if k = key then (key, v) :: rest else (k, w) :: setRec rest key v

/-- In-place mutation of the record stored under an existing key (Go code
mutates through the stored pointer); absent keys are left alone. -/
def updateRec {κ α : Type} [DecidableEq κ] (f : α → α) : List (κ × α) → κ → List (κ × α)
  | [], _ => []
  | (k, w) :: rest, key =>
    if k = key then (k, f w) :: rest else (k, w) :: updateRec f rest key

/-- Kind of a go-git diff chunk (diff.Add / diff.Delete / diff.Equal). -/
inductive ChunkKind : Type
  | add : ChunkKind
  | delete : ChunkKind
  | equal : ChunkKind
deriving DecidableEq, Repr

/-- One diff chunk: its kind and its raw content string (split on newlines by
the consumers). -/
structure Chunk : Type where
  kind : ChunkKind
  content : String
deriving DecidableEq, Repr

/-- One file patch of a commit, as produced by the external diff source:
optional from/to paths and the chunk list. -/
structure FileDiff : Type where
  fromPath : Option String
  toPath : Option String
  chunks : List Chunk
deriving DecidableEq, Repr

/-- A file of a commit's tree snapshot: path and raw content. -/
structure FileEntry : Type where
  name : String
  content : String
deriving DecidableEq, Repr

/-- A commit as the engine sees it: identifier, author timestamp (in days),
whether it has a parent, its tree snapshot, and its diff against the
previous commit of the replayed sequence. -/
structure Commit : Type where
  hash : String
  time : ℚ
  hasParent : Bool
  tree : List FileEntry
  diffs : List FileDiff
deriving DecidableEq, Repr

/-- The path a file patch is attributed to: the to-file if present, else the
from-file (p1 variant, lines 161-171). -/
def diffPath (fd : FileDiff) : Option String :=
  match fd.toPath with
  | some p => some p
  | none => fd.fromPath

/-!
The p1 variant (the unnamed source file): content-keyed CodeLine records,
first-commit tree snapshot, add/delete chunk processing, lifetime collection,
survival curve, half-life crossing with median fallback.
-/

/-- The p1 variant's per-line record (struct CodeLine). -/
structure CodeLine : Type where
  content : String
  file : String
  createdAt : ℚ
  deletedAt : Option ℚ
  commitHash : String
  lastSeen : ℚ
deriving DecidableEq, Repr

/-- The p1 identity key: fmt.Sprintf("%s:%s", path, line). -/
def p1Key (path line : String) : String := path ++ ":" ++ line

/-- Processing of one line of an added chunk (p1 variant, lines 180-206):
blank lines are skipped; a fresh key creates a record with createdAt =
lastSeen = the commit time; an existing key only refreshes lastSeen. -/
def p1AddLine (t : ℚ) (hash path : String) (m : List (String × CodeLine))
    (line : String) : List (String × CodeLine) :=
  if isBlankLine line then m
  else
    match lookupRec m (p1Key path line) with
    | none => m ++ [(p1Key path line, ⟨line, path, t, none, hash, t⟩)]
    | some _ => updateRec (fun cl => { cl with lastSeen := t }) m (p1Key path line)

/-- Processing of one line of a deleted chunk (p1 variant, lines 208-228):
blank lines are skipped; an existing key gets deletedAt set to the commit
time (unconditionally, even if it was already set); an unknown key is
silently ignored. -/
def p1DeleteLine (t : ℚ) (path : String) (m : List (String × CodeLine))
    (line : String) : List (String × CodeLine) :=
  if isBlankLine line then m
  else
    match lookupRec m (p1Key path line) with
    | none => m
    | some _ => updateRec (fun cl => { cl with deletedAt := some t }) m (p1Key path line)

/-- Chunk dispatch of the p1 variant (switch chunk.Type(): only Add and
Delete are handled; Equal chunks are ignored). -/
def p1Chunk (t : ℚ) (hash path : String) (m : List (String × CodeLine))
    (ch : Chunk) : List (String × CodeLine) :=
  match ch.kind with
  | ChunkKind.add => (splitLines ch.content).foldl (p1AddLine t hash path) m
  | ChunkKind.delete => (splitLines ch.content).foldl (p1DeleteLine t path) m
  | ChunkKind.equal => m

/-- One file patch of a non-initial commit in the p1 variant: resolve the
path, apply the pattern filter, then fold over the chunks. -/
def p1FilePatch (t : ℚ) (hash pattern : String) (m : List (String × CodeLine))
    (fd : FileDiff) : List (String × CodeLine) :=
  match diffPath fd with
  | none => m
  | some path =>
    if matchesPattern path pattern then fd.chunks.foldl (p1Chunk t hash path) m else m

/-- One line of the first-commit tree snapshot (p1 variant, lines 123-145):
blank lines are skipped, every other line is assigned (overwriting any
duplicate-content key) a fresh record at the commit time. -/
def p1SnapshotLine (t : ℚ) (hash file : String) (m : List (String × CodeLine))
    (line : String) : List (String × CodeLine) :=
  if isBlankLine line then m
  else setRec m (p1Key file line) ⟨line, file, t, none, hash, t⟩

/-- One file of the first-commit tree snapshot: pattern filter, then fold
over the split content lines. -/
def p1SnapshotFile (pattern : String) (t : ℚ) (hash : String)
    (m : List (String × CodeLine)) (f : FileEntry) : List (String × CodeLine) :=
  if matchesPattern f.name pattern then
    (splitLines f.content).foldl (p1SnapshotLine t hash f.name) m
  else m

/-- The special-cased first commit of the p1 variant: the whole tree is
recorded as created, with no diff computed. -/
def p1FirstCommit (pattern : String) (c : Commit) : List (String × CodeLine) :=
  c.tree.foldl (p1SnapshotFile pattern c.time c.hash) []

/-- A non-initial commit of the p1 variant: fold its file patches. -/
def p1Commit (pattern : String) (m : List (String × CodeLine)) (c : Commit) :
    List (String × CodeLine) :=
  c.diffs.foldl (p1FilePatch c.time c.hash pattern) m

/-- Replay of the chronologically ordered commit sequence by the p1 variant:
the first commit as a tree snapshot, every later commit via its diff. -/
def replayP1 (pattern : String) : List Commit → List (String × CodeLine)
  | [] => []
  | c :: rest => rest.foldl (p1Commit pattern) (p1FirstCommit pattern c)

/-- Lifetime of a record in days (p1 variant, lines 242-263): measured to
deletedAt when set, to now otherwise. -/
def lineLifetime (now : ℚ) (cl : CodeLine) : ℚ :=
  match cl.deletedAt with
  | some d => d - cl.createdAt
  | none => now - cl.createdAt

/-- The lifetime sample of the p1 variant: one value per record with
strictly positive lifetime; non-positive lifetimes are dropped. -/
def collectLifetimesP1 (now : ℚ) (m : List (String × CodeLine)) : List ℚ :=
  m.foldl (fun acc kv =>
    if 0 < lineLifetime now kv.2 then acc ++ [lineLifetime now kv.2] else acc) []

/-- Ascending sort (Go's sort.Float64s). -/
def sortQ (l : List ℚ) : List ℚ := List.insertionSort (· ≤ ·) l

/-- The sorted lifetime sample a replay of the p1 variant produces. -/
def p1SortedLifetimes (pattern : String) (now : ℚ) (commits : List Commit) : List ℚ :=
  sortQ (collectLifetimesP1 now (replayP1 pattern commits))

/-- maxAge := lifetimes[len(lifetimes)-1] (the p1 variant reads the last
element of the sorted sample). -/
def p1MaxAge (l : List ℚ) : ℚ := l.getD (l.length - 1) 0

/-- The i-th sampled age: timePoint := (maxAge * i) / timePoints with
timePoints = 100 (p1 variant, lines 275-277). -/
def p1TimePoint (l : List ℚ) (i : ℕ) : ℚ := p1MaxAge l * (i : ℚ) / 100

/-- The survival curve of the p1 variant: for each of the 100 sampled ages,
the fraction of lifetimes that are >= that age. -/
def survivalRateP1 (l : List ℚ) : List ℚ :=
  (List.range 100).map (fun i =>
    ((l.countP (fun lt => p1TimePoint l i ≤ lt) : ℕ) : ℚ) / (l.length : ℚ))

/-- The crossing scan of the p1 variant (lines 288-295): the first rate
<= 0.5 sets halfLife to its sampled age and breaks; 0 if none crosses. -/
def halfLifeLoop (a : ℚ) : ℕ → List ℚ → ℚ
  | _, [] => 0
  | i, r :: rs => if r ≤ 1 / 2 then a * (i : ℚ) / 100 else halfLifeLoop a (i + 1) rs

/-- The half-life of the p1 variant: the first crossing age, with the
fallback halfLife = lifetimes[len/2] when the scan returned 0. -/
def halfLifeP1 (l : List ℚ) : ℚ :=
  let hl := halfLifeLoop (p1MaxAge l) 0 (survivalRateP1 l)
  if hl = 0 then l.getD (l.length / 2) 0 else hl

/-- The statistics record of the p1 variant (struct Stats; the
oldest/newest sample-line fields, which no claim concerns, are not
modelled, and FirstCommit/LastCommit are omitted likewise). -/
structure P1Stats : Type where
  halfLife : ℚ
  totalLines : ℕ
  medianAge : ℚ
  survivalRate : List ℚ
  deletedLines : ℕ
  survivingLines : ℕ
deriving DecidableEq, Repr

/-- Number of records with deletedAt unset. -/
def p1Surviving (m : List (String × CodeLine)) : ℕ :=
  m.countP (fun kv => kv.2.deletedAt.isNone)

/-- End-to-end analysis of the p1 variant: replay, collect lifetimes, fail
with "no valid lifetimes found" on an empty sample, otherwise sort and
aggregate. -/
def analyzeP1 (pattern : String) (now : ℚ) (commits : List Commit) :
    Except String P1Stats :=
  let m := replayP1 pattern commits
  let lifetimes := collectLifetimesP1 now m
  if lifetimes = [] then Except.error "no valid lifetimes found"
  else
    let s := sortQ lifetimes
    Except.ok
      { halfLife := halfLifeP1 s
        totalLines := m.length
        medianAge := s.getD (s.length / 2) 0
        survivalRate := survivalRateP1 s
        deletedLines := m.length - p1Surviving m
        survivingLines := p1Surviving m }

/-!
The main.go variant: LineHistory records carrying explicit ChangeEvent lists,
a per-commit change-frequency tally, and the calculateStats /
calculateSurvivalRate statistics engine.
-/

/-- main.go's ChangeType enumeration. -/
inductive ChangeType : Type
  | created : ChangeType
  | modified : ChangeType
  | deleted : ChangeType
deriving DecidableEq, Repr

/-- main.go's ChangeEvent (the Distance field is declared in the source but
never assigned a nonzero value). -/
structure ChangeEvent : Type where
  timestamp : ℚ
  kind : ChangeType
  newValue : String
  distance : Int
deriving DecidableEq, Repr

/-- main.go's LineHistory record. -/
structure LineHistory : Type where
  file : String
  line : String
  changes : List ChangeEvent
  firstSeen : ℚ
  lastSeen : ℚ
  deletedAt : Option ℚ
deriving DecidableEq, Repr

/-- main.go's identity key fmt.Sprintf("%s:%d:%s", path, lineNum, line): the
lineNum local is initialized to 1 and never incremented, so the middle
component is always 1. -/
def mainKey (path line : String) : String := path ++ ":1:" ++ line

/-- One line of an added chunk in main.go (lines 238-257): blank lines are
skipped; a fresh key creates a record whose change list is the single
Created event; an existing key is left completely untouched. -/
def mainAddLine (t : ℚ) (path : String) (m : List (String × LineHistory))
    (line : String) : List (String × LineHistory) :=
  if isBlankLine line then m
  else
    match lookupRec m (mainKey path line) with
    | some _ => m
    | none => m ++ [(mainKey path line, ⟨path, line, [⟨t, ChangeType.created, line, 0⟩], t, t, none⟩)]

/-- One line of a deleted chunk in main.go (lines 259-274): an existing key
gets deletedAt set (unconditionally) and a Deleted event appended. -/
def mainDeleteLine (t : ℚ) (path : String) (m : List (String × LineHistory))
    (line : String) : List (String × LineHistory) :=
  if isBlankLine line then m
  else
    match lookupRec m (mainKey path line) with
    | none => m
    | some _ =>
      updateRec (fun h =>
        { h with deletedAt := some t,
                 changes := h.changes ++ [⟨t, ChangeType.deleted, "", 0⟩] })
        m (mainKey path line)

/-- One line of an Equal chunk in main.go (lines 276-293): an existing key
refreshes lastSeen, and while the record is not deleted a Modified event is
appended. -/
def mainEqualLine (t : ℚ) (path : String) (m : List (String × LineHistory))
    (line : String) : List (String × LineHistory) :=
  if isBlankLine line then m
  else
    match lookupRec m (mainKey path line) with
    | none => m
    | some _ =>
      updateRec (fun h =>
        if h.deletedAt = none then
          { h with lastSeen := t,
                   changes := h.changes ++ [⟨t, ChangeType.modified, line, 0⟩] }
        else { h with lastSeen := t })
        m (mainKey path line)

/-- The mutable per-replay state of main.go's analyzeRepository: the record
map, the changeFrequency tally (split into its three keys), and the
edit-size and line-count accumulators. -/
structure MainState : Type where
  lineHistories : List (String × LineHistory)
  createdCount : ℕ
  modifiedCount : ℕ
  deletedCount : ℕ
  totalEditSize : ℕ
  totalEdits : ℕ
  totalLines : ℕ
deriving DecidableEq, Repr

/-- Chunk dispatch of main.go, including the edit-size accounting for
non-Equal chunks (lines 234-300). -/
def mainChunk (t : ℚ) (path : String) (st : MainState) (ch : Chunk) : MainState :=
  let m :=
    match ch.kind with
    | ChunkKind.add => (splitLines ch.content).foldl (mainAddLine t path) st.lineHistories
    | ChunkKind.delete => (splitLines ch.content).foldl (mainDeleteLine t path) st.lineHistories
    | ChunkKind.equal => (splitLines ch.content).foldl (mainEqualLine t path) st.lineHistories
  match ch.kind with
  | ChunkKind.equal => { st with lineHistories := m }
  | _ =>
    { st with lineHistories := m,
              totalEditSize := st.totalEditSize + ch.content.length,
              totalEdits := st.totalEdits + 1 }

/-- One file patch of main.go: skipped when the to-file is absent or the
suffix filter rejects the path. -/
def mainFilePatch (t : ℚ) (pattern : String) (st : MainState) (fd : FileDiff) :
    MainState :=
  match fd.toPath with
  | none => st
  | some path =>
    if mainFileMatch path pattern then fd.chunks.foldl (mainChunk t path) st else st

/-- Line count of a tree snapshot under main.go's suffix filter; counts raw
strings.Split fragments, blank ones included. -/
def treeLineCount (pattern : String) (tree : List FileEntry) : ℕ :=
  tree.foldl (fun acc f =>
    if mainFileMatch f.name pattern then acc + (splitLines f.content).length else acc) 0

/-- Total number of events of one kind over all records of the map. -/
def countEvents (tt : ChangeType) (m : List (String × LineHistory)) : ℕ :=
  m.foldl (fun acc kv => acc + kv.2.changes.countP (fun e => e.kind == tt)) 0

/-- One commit of main.go's replay loop (lines 191-319): the commit tree's
lines are added to totalLines; when the commit has a parent its diff is
folded into the state; and then — still inside the commit loop — the
changeFrequency tally is incremented by the event counts of the whole
current record map. -/
def mainCommit (pattern : String) (st : MainState) (c : Commit) : MainState :=
  let st1 := { st with totalLines := st.totalLines + treeLineCount pattern c.tree }
  let st2 := if c.hasParent then c.diffs.foldl (mainFilePatch c.time pattern) st1 else st1
  { st2 with
    createdCount := st2.createdCount + countEvents ChangeType.created st2.lineHistories,
    modifiedCount := st2.modifiedCount + countEvents ChangeType.modified st2.lineHistories,
    deletedCount := st2.deletedCount + countEvents ChangeType.deleted st2.lineHistories }

/-- The initial replay state of main.go. -/
def initMainState : MainState := ⟨[], 0, 0, 0, 0, 0, 0⟩

/-- The lifetime sample of main.go's calculateStats (lines 56-68): endTime is
deletedAt when set, now otherwise, and a lifetime is kept when it is >= 0
(zero lifetimes are included). -/
def mainLifetimes (now : ℚ) (m : List (String × LineHistory)) : List ℚ :=
  m.foldl (fun acc kv =>
    let endTime := match kv.2.deletedAt with | some d => d | none => now
    if 0 ≤ endTime - kv.2.firstSeen then acc ++ [endTime - kv.2.firstSeen] else acc) []

/-- Running sum, as the source accumulates it. -/
def listSum (l : List ℚ) : ℚ := l.foldl (· + ·) 0

/-- The exact value of the float64 constant math.Log(2) used by main.go's
half-life formula (the nearest double to the real log 2); the claims touching
halfLife only need that this constant is strictly between 0 and 1. -/
def log2F : ℚ := 6243314768165359 / 2 ^ 53

/-- main.go's Stats record.  StdDevLifetime is represented by its square
(stdDevSq), since the square root leaves ℚ; no claim concerns it.  The
SurvivalRate map is keyed by the truncated age in days. -/
structure MainStats : Type where
  medianLifetime : ℚ
  meanLifetime : ℚ
  stdDevSq : ℚ
  halfLife : ℚ
  totalLinesTracked : ℕ
  linesWithChanges : ℕ
  oldestCode : ℚ
  newestCode : ℚ
  survivalRate : List (ℤ × ℚ)
  createdCount : ℕ
  modifiedCount : ℕ
  deletedCount : ℕ
  averageEditSize : ℚ
deriving DecidableEq, Repr

/-- The all-zero Stats{} value returned on an empty sample. -/
def zeroMainStats : MainStats := ⟨0, 0, 0, 0, 0, 0, 0, 0, [], 0, 0, 0, 0⟩

/-- main.go's calculateStats (lines 55-109): mean, population variance,
median (averaging the two middle values on even counts), HalfLife =
median * log 2, and the extreme lifetimes of the sorted sample.  An empty
sample returns the zero Stats value — not an error. -/
def calculateStats (now : ℚ) (histories : List (String × LineHistory)) : MainStats :=
  let lifetimes := mainLifetimes now histories
  if lifetimes = [] then zeroMainStats
  else
    let s := sortQ lifetimes
    let n := s.length
    let mean := listSum s / (n : ℚ)
    let sumSquares := listSum (s.map (fun x => (x - mean) * (x - mean)))
    let median :=
      if n % 2 = 0 then (s.getD (n / 2 - 1) 0 + s.getD (n / 2) 0) / 2
      else s.getD (n / 2) 0
    { medianLifetime := median
      meanLifetime := mean
      stdDevSq := sumSquares / (n : ℚ)
      halfLife := median * log2F
      totalLinesTracked := histories.length
      linesWithChanges := n
      oldestCode := s.getD (n - 1) 0
      newestCode := s.getD 0 0
      survivalRate := []
      createdCount := 0
      modifiedCount := 0
      deletedCount := 0
      averageEditSize := 0 }

/-- Go's float64-to-int conversion: truncation toward zero. -/
def goTruncToInt (q : ℚ) : ℤ := if 0 ≤ q then ⌊q⌋ else -⌊-q⌋

/-- The per-record liveness test of calculateSurvivalRate (lines 133-139):
age measured against now is >= t, and a deleted record additionally needs
its deletion age strictly beyond t. -/
def aliveAt (now t : ℚ) (kv : String × LineHistory) : Bool :=
  decide (t ≤ now - kv.2.firstSeen) &&
    (match kv.2.deletedAt with
     | none => true
     | some d => decide (t < d - kv.2.firstSeen))

/-- Number of records alive at sampled age t. -/
def aliveCount (now : ℚ) (m : List (String × LineHistory)) (t : ℚ) : ℕ :=
  m.countP (aliveAt now t)

/-- main.go's calculateSurvivalRate (lines 111-145): the ages (collected by
the same loop as the lifetime sample) are sorted ascending and, for each, the
survival map at the truncated age is assigned the alive fraction — later
(larger) ages overwrite earlier ones that truncate to the same key. -/
def calculateSurvivalRate (now : ℚ) (histories : List (String × LineHistory)) :
    List (ℤ × ℚ) :=
  let timePoints := sortQ (mainLifetimes now histories)
  timePoints.foldl (fun surv t =>
    setRec surv (goTruncToInt t) ((aliveCount now histories t : ℚ) / (histories.length : ℚ))) []

/-- main.go's analyzeRepository (lines 147-336) after the git plumbing: the
currentLines count over the HEAD tree, the commit fold, and the final Stats
assembly (TotalLinesTracked is overwritten with currentLines, the tally and
average edit size are filled in).  The statistics path produces a value for
every input — there is no empty-sample failure.  Commits are processed in
the order of the given list, each carrying the diff the external source
attributes to it (producing the linearized log and the per-commit diffs is
the external collaborator's concern). -/
def analyzeMain (pattern : String) (now : ℚ) (headTree : List FileEntry)
    (commits : List Commit) : MainStats × List (String × LineHistory) :=
  let currentLines := treeLineCount pattern headTree
  let st := commits.foldl (mainCommit pattern) initMainState
  let stats := calculateStats now st.lineHistories
  let stats :=
    { stats with
      totalLinesTracked := currentLines
      survivalRate := calculateSurvivalRate now st.lineHistories
      createdCount := st.createdCount
      modifiedCount := st.modifiedCount
      deletedCount := st.deletedCount
      averageEditSize :=
        if 0 < st.totalEdits then (st.totalEditSize : ℚ) / (st.totalEdits : ℚ) else 0 }
  (stats, st.lineHistories)

/-!
Generic lemmas about the association-list map model and folds.
-/

theorem foldl_preserves {α β : Type} {P : β → Prop} {f : β → α → β}
    (h : ∀ b a, P b → P (f b a)) :
    ∀ (l : List α) (b : β), P b → P (l.foldl f b) := by
  intro l
  induction l with
  | nil => intro b hb; simpa using hb
  | cons a l ih => intro b hb; simpa using ih (f b a) (h b a hb)

theorem lookupRec_updateRec_self {κ α : Type} [DecidableEq κ] (f : α → α)
    (m : List (κ × α)) (k : κ) (v : α) (h : lookupRec m k = some v) :
    lookupRec (updateRec f m k) k = some (f v) := by
  induction m with
  | nil => simp [lookupRec] at h
  | cons p rest ih =>
    obtain ⟨k1, w⟩ := p
    by_cases hk : k1 = k
    · subst hk
      simp [lookupRec] at h
      simp [updateRec, lookupRec, h]
    · simp [lookupRec, hk] at h
      simp [updateRec, lookupRec, hk, ih h]

theorem lookupRec_updateRec_ne {κ α : Type} [DecidableEq κ] (f : α → α)
    (m : List (κ × α)) (k k' : κ) (h : k' ≠ k) :
    lookupRec (updateRec f m k) k' = lookupRec m k' := by
  induction m with
  | nil => simp [updateRec]
  | cons p rest ih =>
    obtain ⟨k1, w⟩ := p
    simp only [updateRec]
    by_cases hk : k1 = k
    · rw [if_pos hk]
      have hne : ¬ (k1 = k') := fun hh => h (by rw [← hh, hk])
      simp [lookupRec, hne]
    · rw [if_neg hk]
      by_cases hk' : k1 = k'
      · simp [lookupRec, hk']
      · simp [lookupRec, hk', ih]

theorem updateRec_length {κ α : Type} [DecidableEq κ] (f : α → α)
    (m : List (κ × α)) (k : κ) : (updateRec f m k).length = m.length := by
  induction m with
  | nil => simp [updateRec]
  | cons p rest ih =>
    obtain ⟨k1, w⟩ := p
    by_cases hk : k1 = k <;> simp [updateRec, hk, ih]

theorem forall_mem_updateRec {κ α : Type} [DecidableEq κ] {P : α → Prop}
    (f : α → α) (m : List (κ × α)) (k : κ)
    (hP : ∀ p ∈ m, P p.2) (hf : ∀ x, P x → P (f x)) :
    ∀ p ∈ updateRec f m k, P p.2 := by
  induction m with
  | nil => simp [updateRec]
  | cons q rest ih =>
    obtain ⟨k1, w⟩ := q
    by_cases hk : k1 = k
    · intro p hp
      simp only [updateRec, hk, if_pos rfl] at hp
      rcases List.mem_cons.mp hp with h1 | h2
      · subst h1; exact hf w (hP (k1, w) (List.mem_cons_self _ _))
      · exact hP p (List.mem_cons_of_mem _ h2)
    · intro p hp
      simp only [updateRec, if_neg hk] at hp
      rcases List.mem_cons.mp hp with h1 | h2
      · subst h1; exact hP (k1, w) (List.mem_cons_self _ _)
      · exact ih (fun q hq => hP q (List.mem_cons_of_mem _ hq)) p h2

theorem mem_setRec {κ α : Type} [DecidableEq κ] (m : List (κ × α)) (k : κ)
    (v : α) : ∀ p ∈ setRec m k v, p = (k, v) ∨ p ∈ m := by
  induction m with
  | nil => simp [setRec]
  | cons q rest ih =>
    obtain ⟨k1, w⟩ := q
    simp only [setRec]
    by_cases hk : k1 = k
    · rw [if_pos hk]
      intro p hp
      rcases List.mem_cons.mp hp with h1 | h2
      · exact Or.inl h1
      · exact Or.inr (List.mem_cons_of_mem _ h2)
    · rw [if_neg hk]
      intro p hp
      rcases List.mem_cons.mp hp with h1 | h2
      · exact Or.inr (h1 ▸ List.mem_cons_self _ _)
      · rcases ih p h2 with h3 | h4
        · exact Or.inl h3
        · exact Or.inr (List.mem_cons_of_mem _ h4)

theorem lookupRec_setRec_self {κ α : Type} [DecidableEq κ] (m : List (κ × α))
    (k : κ) (v : α) : lookupRec (setRec m k v) k = some v := by
  induction m with
  | nil => simp [setRec, lookupRec]
  | cons q rest ih =>
    obtain ⟨k1, w⟩ := q
    simp only [setRec]
    by_cases hk : k1 = k
    · rw [if_pos hk]; simp [lookupRec]
    · rw [if_neg hk]; simp [lookupRec, hk, ih]

theorem lookupRec_setRec_ne {κ α : Type} [DecidableEq κ] (m : List (κ × α))
    (k k' : κ) (v : α) (h : k' ≠ k) :
    lookupRec (setRec m k v) k' = lookupRec m k' := by
  induction m with
  | nil =>
    have hne2 : ¬ (k = k') := fun hh => h hh.symm
    simp [setRec, lookupRec, hne2]
  | cons q rest ih =>
    obtain ⟨k1, w⟩ := q
    simp only [setRec]
    by_cases hk : k1 = k
    · rw [if_pos hk]
      have hne2 : ¬ (k = k') := fun hh => h hh.symm
      have hne1 : ¬ (k1 = k') := by rw [hk]; exact hne2
      simp [lookupRec, hne2, hne1]
    · rw [if_neg hk]
      by_cases hk' : k1 = k'
      · simp [lookupRec, hk']
      · simp [lookupRec, hk', ih]

theorem forall_mem_setRec {κ α : Type} [DecidableEq κ] {P : α → Prop}
    (m : List (κ × α)) (k : κ) (v : α)
    (hP : ∀ p ∈ m, P p.2) (hv : P v) : ∀ p ∈ setRec m k v, P p.2 := by
  intro p hp
  rcases mem_setRec m k v p hp with h1 | h2
  · rw [h1]; exact hv
  · exact hP p h2

/-!
Claim C10: re-deletion of an already-closed record overwrites deletedAt with
the later commit's timestamp.
-/

/-- C10: when a key's record is already closed (deletedAt set) and the same
non-blank line appears again in a deleted chunk at time t, both variants
overwrite the record's deletedAt with t (the last observed deletion wins)
rather than leaving the closed record unchanged, so the record's computed
lifetime is measured to the last observed deletion. -/
theorem c10_last_deletion_wins (t d d' now : ℚ) (path line : String)
    (m : List (String × CodeLine)) (mh : List (String × LineHistory))
    (cl : CodeLine) (h : LineHistory)
    (hblank : isBlankLine line = false)
    (hcl : lookupRec m (p1Key path line) = some cl)
    (hclosed : cl.deletedAt = some d)
    (hh : lookupRec mh (mainKey path line) = some h)
    (hclosed2 : h.deletedAt = some d') :
    lookupRec (p1DeleteLine t path m line) (p1Key path line) =
      some { cl with deletedAt := some t } ∧
    lineLifetime now { cl with deletedAt := some t } = t - cl.createdAt ∧
    lookupRec (mainDeleteLine t path mh line) (mainKey path line) =
      some { h with deletedAt := some t,
                    changes := h.changes ++ [⟨t, ChangeType.deleted, "", 0⟩] } := by
  refine ⟨?_, ?_, ?_⟩
  · simp only [p1DeleteLine, hblank, Bool.false_eq_true, if_false, hcl]
    exact lookupRec_updateRec_self _ m _ cl hcl
  · simp [lineLifetime]
  · simp only [mainDeleteLine, hblank, Bool.false_eq_true, if_false, hh]
    exact lookupRec_updateRec_self _ mh _ h hh

/-- Witness for c10_last_deletion_wins at a concrete closed record. -/
theorem c10_last_deletion_wins_witness :
    lookupRec (p1DeleteLine 5 "f.go" [("f.go:x", ⟨"x", "f.go", 0, some 2, "c1", 0⟩)] "x")
        (p1Key "f.go" "x") = some ⟨"x", "f.go", 0, some 5, "c1", 0⟩ ∧
    lineLifetime 9 (⟨"x", "f.go", 0, some 5, "c1", 0⟩ : CodeLine) = 5 - 0 ∧
    lookupRec (mainDeleteLine 5 "f.go"
        [("f.go:1:x", ⟨"f.go", "x", [⟨0, ChangeType.created, "x", 0⟩], 0, 0, some 2⟩)] "x")
        (mainKey "f.go" "x") =
      some ⟨"f.go", "x", [⟨0, ChangeType.created, "x", 0⟩, ⟨5, ChangeType.deleted, "", 0⟩], 0, 0, some 5⟩ :=
  c10_last_deletion_wins 5 2 2 9 "f.go" "x"
    [("f.go:x", ⟨"x", "f.go", 0, some 2, "c1", 0⟩)]
    [("f.go:1:x", ⟨"f.go", "x", [⟨0, ChangeType.created, "x", 0⟩], 0, 0, some 2⟩)]
    ⟨"x", "f.go", 0, some 2, "c1", 0⟩
    ⟨"f.go", "x", [⟨0, ChangeType.created, "x", 0⟩], 0, 0, some 2⟩
    (by decide) (by decide) rfl (by decide) rfl

/-!
Claim C2: the claim says a re-added previously-deleted identical line gets a
brand-new record.  In both variants the closed record persists in the map, so
the re-add finds the existing key and no new record is ever created; the p1
variant merely refreshes lastSeen and main.go does nothing at all.
-/

/-- Commit sequence for C2: the snapshot adds line x at time 0, commit c2
deletes it at time 1, commit c3 re-adds the identical line at time 2. -/
def c2commits : List Commit :=
  [⟨"c1", 0, false, [⟨"f.go", "x"⟩], []⟩,
   ⟨"c2", 1, true, [], [⟨some "f.go", some "f.go", [⟨ChunkKind.delete, "x"⟩]⟩]⟩,
   ⟨"c3", 2, true, [], [⟨some "f.go", some "f.go", [⟨ChunkKind.add, "x"⟩]⟩]⟩]

/-- C2 counterexample: after delete-then-identical-re-add the p1 replay holds
exactly the single original record — createdAt 0, deletedAt still 1, only
lastSeen refreshed to 2.  The brand-new record the claim requires (an open
record created at time 2) does not exist. -/
theorem c2_counterexample :
    replayP1 "*" c2commits = [("f.go:x", ⟨"x", "f.go", 0, some 1, "c1", 2⟩)] ∧
    (replayP1 "*" c2commits).countP
      (fun kv => kv.2.createdAt == (2 : ℚ) && kv.2.deletedAt.isNone) = 0 := by
  have h : replayP1 "*" c2commits = [("f.go:x", ⟨"x", "f.go", 0, some 1, "c1", 2⟩)] := by
    simp +decide [replayP1, c2commits, p1FirstCommit, p1SnapshotFile, p1SnapshotLine,
      p1Commit, p1FilePatch, p1Chunk, p1AddLine, p1DeleteLine, p1Key, matchesPattern,
      diffPath, splitLines, splitLinesAux, isBlankLine, isSpaceChar, lookupRec, setRec,
      updateRec]
  refine ⟨h, ?_⟩
  rw [h]
  decide

/-- C2 amended: a line identical to an already-deleted line, re-added later
in the same file, does not get a brand-new record: the closed record keeps
its key, its deletedAt stays set and its history is untouched — the p1
variant only refreshes lastSeen (the map keeps its size and the record keeps
createdAt/deletedAt), and main.go's add path leaves the map completely
unchanged. -/
theorem c2_amended_readd_reuses_closed_record (t : ℚ) (hash path line : String)
    (m : List (String × CodeLine)) (mh : List (String × LineHistory))
    (cl : CodeLine) (h : LineHistory)
    (hblank : isBlankLine line = false)
    (hcl : lookupRec m (p1Key path line) = some cl)
    (hh : lookupRec mh (mainKey path line) = some h) :
    (p1AddLine t hash path m line).length = m.length ∧
    lookupRec (p1AddLine t hash path m line) (p1Key path line) =
      some { cl with lastSeen := t } ∧
    mainAddLine t path mh line = mh := by
  refine ⟨?_, ?_, ?_⟩
  · simp only [p1AddLine, hblank, Bool.false_eq_true, if_false, hcl]
    exact updateRec_length _ m _
  · simp only [p1AddLine, hblank, Bool.false_eq_true, if_false, hcl]
    exact lookupRec_updateRec_self _ m _ cl hcl
  · simp only [mainAddLine, hblank, Bool.false_eq_true, if_false, hh]

/-- Witness for c2_amended_readd_reuses_closed_record on a concrete closed
record. -/
theorem c2_amended_readd_reuses_closed_record_witness :
    (p1AddLine 2 "c3" "f.go" [("f.go:x", ⟨"x", "f.go", 0, some 1, "c1", 0⟩)] "x").length = 1 ∧
    lookupRec (p1AddLine 2 "c3" "f.go" [("f.go:x", ⟨"x", "f.go", 0, some 1, "c1", 0⟩)] "x")
        (p1Key "f.go" "x") = some ⟨"x", "f.go", 0, some 1, "c1", 2⟩ ∧
    mainAddLine 2 "f.go" [("f.go:1:x", ⟨"f.go", "x", [], 0, 0, some 1⟩)] "x" =
      [("f.go:1:x", ⟨"f.go", "x", [], 0, 0, some 1⟩)] :=
  c2_amended_readd_reuses_closed_record 2 "c3" "f.go" "x"
    [("f.go:x", ⟨"x", "f.go", 0, some 1, "c1", 0⟩)]
    [("f.go:1:x", ⟨"f.go", "x", [], 0, 0, some 1⟩)]
    ⟨"x", "f.go", 0, some 1, "c1", 0⟩
    ⟨"f.go", "x", [], 0, 0, some 1⟩
    (by decide) (by decide) (by decide)

/-!
Claim C4: an empty lifetime sample is a terminal failure.  True of the p1
variant ("no valid lifetimes found"); false of main.go, whose calculateStats
returns the zero Stats value and whose analysis still assembles and returns a
(partial) statistics report with no error at all.
-/

/-- C4 amended (the p1 variant behaves as claimed): whenever the lifetime
sample of a replay is empty after filtering, the p1 analysis terminates with
the descriptive failure "no valid lifetimes found" and produces no
statistics value. -/
theorem c4_amended_p1_empty_sample_fails (pattern : String) (now : ℚ)
    (commits : List Commit)
    (h : collectLifetimesP1 now (replayP1 pattern commits) = []) :
    analyzeP1 pattern now commits = Except.error "no valid lifetimes found" := by
  unfold analyzeP1
  simp [h]

/-- Single-commit sequence whose only file content is blank, so nothing is
ever tracked. -/
def c4pcommits : List Commit := [⟨"c1", 0, false, [⟨"f.go", " "⟩], []⟩]

/-- Witness for c4_amended_p1_empty_sample_fails: a replay in which every
line is blank-excluded has an empty sample and fails. -/
theorem c4_amended_p1_empty_sample_fails_witness :
    collectLifetimesP1 5 (replayP1 "*" c4pcommits) = [] ∧
    analyzeP1 "*" 5 c4pcommits = Except.error "no valid lifetimes found" :=
  ⟨by decide, c4_amended_p1_empty_sample_fails "*" 5 c4pcommits (by decide)⟩

/-- Single parentless commit for the main.go side of C4: its tree is never
diffed, so no record exists and the lifetime sample is empty. -/
def c4mcommits : List Commit := [⟨"c1", 0, false, [⟨"f.go", "x"⟩], []⟩]

/-- C4 counterexample: on the same empty-sample situation main.go does not
abort — its record map is empty, its lifetime sample is empty, and yet the
analysis returns a statistics report (the zero Stats with TotalLinesTracked
overwritten by the HEAD line count) with no error: a partial report is
produced. -/
theorem c4_counterexample :
    (analyzeMain "*" 5 [⟨"f.go", "x"⟩] c4mcommits).2 = [] ∧
    mainLifetimes 5 (analyzeMain "*" 5 [⟨"f.go", "x"⟩] c4mcommits).2 = [] ∧
    (analyzeMain "*" 5 [⟨"f.go", "x"⟩] c4mcommits).1 =
      { zeroMainStats with totalLinesTracked := 1 } := by
  refine ⟨?_, ?_, ?_⟩ <;>
    simp +decide [analyzeMain, c4mcommits, mainCommit, initMainState, treeLineCount,
      mainFileMatch, trimStar, strStarts, strEnds, splitLines, splitLinesAux,
      countEvents, calculateStats, mainLifetimes, calculateSurvivalRate, sortQ,
      zeroMainStats]

/-!
Claim C3: the first commit as a full tree snapshot.  True of the p1 variant;
false of main.go, which has no snapshot path at all: a commit without a
parent contributes no records whatsoever.
-/

theorem p1SnapshotLine_keeps (t : ℚ) (hash file : String)
    (m : List (String × CodeLine)) (line : String) (k : String)
    (h : (lookupRec m k).isSome) :
    (lookupRec (p1SnapshotLine t hash file m line) k).isSome := by
  unfold p1SnapshotLine
  split
  · exact h
  · by_cases hk : k = p1Key file line
    · subst hk; rw [lookupRec_setRec_self]; rfl
    · rw [lookupRec_setRec_ne _ _ _ _ hk]; exact h

theorem p1SnapshotLines_present (t : ℚ) (hash file : String) (line : String)
    (hb : isBlankLine line = false) :
    ∀ (lines : List String) (m : List (String × CodeLine)), line ∈ lines →
      (lookupRec (lines.foldl (p1SnapshotLine t hash file) m) (p1Key file line)).isSome := by
  intro lines
  induction lines with
  | nil => simp
  | cons l ls ih =>
    intro m hmem
    rcases List.mem_cons.mp hmem with h1 | h2
    · subst h1
      simp only [List.foldl_cons]
      refine foldl_preserves (fun m' l' h => p1SnapshotLine_keeps t hash file m' l' _ h) ls _ ?_
      unfold p1SnapshotLine
      rw [if_neg (by simp [hb])]
      rw [lookupRec_setRec_self]
      rfl
    · simp only [List.foldl_cons]
      exact ih _ h2

theorem p1SnapshotFile_keeps (pattern : String) (t : ℚ) (hash : String)
    (m : List (String × CodeLine)) (f : FileEntry) (k : String)
    (h : (lookupRec m k).isSome) :
    (lookupRec (p1SnapshotFile pattern t hash m f) k).isSome := by
  unfold p1SnapshotFile
  split
  · exact foldl_preserves (fun m' l' hh => p1SnapshotLine_keeps t hash f.name m' l' k hh) _ m h
  · exact h

theorem p1SnapshotTree_present (pattern : String) (t : ℚ) (hash : String)
    (f : FileEntry) (line : String) (hmatch : matchesPattern f.name pattern = true)
    (hb : isBlankLine line = false) (hline : line ∈ splitLines f.content) :
    ∀ (tree : List FileEntry) (m : List (String × CodeLine)), f ∈ tree →
      (lookupRec (tree.foldl (p1SnapshotFile pattern t hash) m) (p1Key f.name line)).isSome := by
  intro tree
  induction tree with
  | nil => simp
  | cons g gs ih =>
    intro m hmem
    rcases List.mem_cons.mp hmem with h1 | h2
    · subst h1
      simp only [List.foldl_cons]
      refine foldl_preserves
        (fun m' g' hh => p1SnapshotFile_keeps pattern t hash m' g' _ hh) gs _ ?_
      unfold p1SnapshotFile
      rw [if_pos hmatch]
      exact p1SnapshotLines_present t hash f.name line hb (splitLines f.content) m hline
    · simp only [List.foldl_cons]
      exact ih _ h2

/-- C3 amended: in the p1 variant the first commit of a non-empty sequence is
processed as a full tree snapshot — every record it produces is open, with
createdAt = lastSeen = the first commit's timestamp and its commit hash, and
every non-blank line of every pattern-matching file of the tree is present in
the produced map — and the replay applies no diff to the first commit
(conjunct four is the defining recursion).  main.go, by contrast, has no
snapshot path: a commit without a parent leaves the record map unchanged
(conjunct three), so the first commit's lines are never recorded there. -/
theorem c3_amended_first_commit_snapshot :
    (∀ (pattern : String) (c : Commit), ∀ p ∈ p1FirstCommit pattern c,
        p.2.createdAt = c.time ∧ p.2.lastSeen = c.time ∧ p.2.deletedAt = none ∧
        p.2.commitHash = c.hash) ∧
    (∀ (pattern : String) (c : Commit) (f : FileEntry) (line : String),
        f ∈ c.tree → matchesPattern f.name pattern = true →
        line ∈ splitLines f.content → isBlankLine line = false →
        (lookupRec (p1FirstCommit pattern c) (p1Key f.name line)).isSome) ∧
    (∀ (pattern : String) (st : MainState) (c : Commit), c.hasParent = false →
        (mainCommit pattern st c).lineHistories = st.lineHistories) ∧
    (∀ (pattern : String) (c : Commit) (rest : List Commit),
        replayP1 pattern (c :: rest) = rest.foldl (p1Commit pattern) (p1FirstCommit pattern c)) := by
  refine ⟨?_, ?_, ?_, ?_⟩
  · intro pattern c
    unfold p1FirstCommit
    refine foldl_preserves
      (P := fun (m : List (String × CodeLine)) => ∀ p ∈ m, p.2.createdAt = c.time ∧
        p.2.lastSeen = c.time ∧ p.2.deletedAt = none ∧
        p.2.commitHash = c.hash) ?_ c.tree []
      (by intro p hp; exact absurd hp (List.not_mem_nil p))
    intro m f hm
    unfold p1SnapshotFile
    split
    · refine foldl_preserves
        (P := fun (m : List (String × CodeLine)) => ∀ p ∈ m, p.2.createdAt = c.time ∧
          p.2.lastSeen = c.time ∧ p.2.deletedAt = none ∧
          p.2.commitHash = c.hash) ?_ _ m hm
      intro m' line hm'
      unfold p1SnapshotLine
      split
      · exact hm'
      · refine forall_mem_setRec
          (P := fun cl => cl.createdAt = c.time ∧ cl.lastSeen = c.time ∧
            cl.deletedAt = none ∧ cl.commitHash = c.hash)
          m' _ _ hm' ?_
        exact ⟨rfl, rfl, rfl, rfl⟩
    · exact hm
  · intro pattern c f line hf hmatch hline hb
    exact p1SnapshotTree_present pattern c.time c.hash f line hmatch hb hline c.tree [] hf
  · intro pattern st c h
    unfold mainCommit
    simp [h]
  · intro pattern c rest
    rfl

/-- Witness for c3_amended_first_commit_snapshot on a one-file, one-line
first commit. -/
theorem c3_amended_first_commit_snapshot_witness :
    ((("f.go:x", (⟨"x", "f.go", 3, none, "c1", 3⟩ : CodeLine)) ∈
        p1FirstCommit "*" ⟨"c1", 3, false, [⟨"f.go", "x"⟩], []⟩) ∧
      ((3 : ℚ) = 3 ∧ (3 : ℚ) = 3 ∧ (none : Option ℚ) = none ∧ "c1" = "c1")) ∧
    (lookupRec (p1FirstCommit "*" ⟨"c1", 3, false, [⟨"f.go", "x"⟩], []⟩)
        (p1Key "f.go" "x")).isSome ∧
    (mainCommit "*" initMainState ⟨"c1", 3, false, [⟨"f.go", "x"⟩], []⟩).lineHistories =
      initMainState.lineHistories ∧
    replayP1 "*" [⟨"c1", 3, false, [⟨"f.go", "x"⟩], []⟩] =
      ([] : List Commit).foldl (p1Commit "*") (p1FirstCommit "*" ⟨"c1", 3, false, [⟨"f.go", "x"⟩], []⟩) :=
  ⟨⟨by decide,
    c3_amended_first_commit_snapshot.1 "*" ⟨"c1", 3, false, [⟨"f.go", "x"⟩], []⟩
      ("f.go:x", ⟨"x", "f.go", 3, none, "c1", 3⟩) (by decide)⟩,
   c3_amended_first_commit_snapshot.2.1 "*" ⟨"c1", 3, false, [⟨"f.go", "x"⟩], []⟩
     ⟨"f.go", "x"⟩ "x" (by decide) (by decide) (by decide) (by decide),
   c3_amended_first_commit_snapshot.2.2.1 "*" initMainState
     ⟨"c1", 3, false, [⟨"f.go", "x"⟩], []⟩ rfl,
   c3_amended_first_commit_snapshot.2.2.2 "*" ⟨"c1", 3, false, [⟨"f.go", "x"⟩], []⟩ []⟩

/-- One parentless commit whose tree holds the non-blank matching line y. -/
def c3mcommits : List Commit := [⟨"c1", 0, false, [⟨"f.go", "y"⟩], []⟩]

/-- C3 counterexample: replaying that sequence with main.go produces an empty
record map even though the first commit's tree contains a non-blank line of a
matching file — main.go never snapshots the first commit, contradicting the
claim that every such line gets a record with a Created event. -/
theorem c3_counterexample :
    isBlankLine "y" = false ∧ mainFileMatch "f.go" "*" = true ∧
    (analyzeMain "*" 5 [⟨"f.go", "y"⟩] c3mcommits).2 = [] := by
  refine ⟨by decide, by decide, ?_⟩
  simp +decide [analyzeMain, c3mcommits, mainCommit, initMainState, treeLineCount,
    mainFileMatch, trimStar, strStarts, strEnds, splitLines, splitLinesAux, countEvents]

/-!
Claim C5: lifetime formula, exclusion of non-positive lifetimes, and every
record counting toward totalTracked.  True of the p1 variant.  main.go
instead keeps zero lifetimes in the sample (its filter is >= 0) and reports
as TotalLinesTracked the HEAD tree's raw line count, not the record count.
-/

/-- totalLines of a successful p1 analysis (0 on failure). -/
def p1TotalOf (r : Except String P1Stats) : ℕ :=
  match r with
  | Except.ok s => s.totalLines
  | Except.error _ => 0

/-- medianAge of a successful p1 analysis (0 on failure). -/
def p1MedianOf (r : Except String P1Stats) : ℚ :=
  match r with
  | Except.ok s => s.medianAge
  | Except.error _ => 0

theorem collectLifetimesP1_mono (now : ℚ) (x : ℚ) :
    ∀ (m : List (String × CodeLine)) (acc : List ℚ), x ∈ acc →
      x ∈ m.foldl (fun acc kv =>
        if 0 < lineLifetime now kv.2 then acc ++ [lineLifetime now kv.2] else acc) acc := by
  intro m
  refine foldl_preserves (P := fun acc => x ∈ acc) ?_ m
  intro acc kv hx
  split
  · exact List.mem_append_left _ hx
  · exact hx

theorem collectLifetimesP1_complete (now : ℚ) :
    ∀ (m : List (String × CodeLine)) (acc : List ℚ) (p : String × CodeLine),
      p ∈ m → 0 < lineLifetime now p.2 →
      lineLifetime now p.2 ∈ m.foldl (fun acc kv =>
        if 0 < lineLifetime now kv.2 then acc ++ [lineLifetime now kv.2] else acc) acc := by
  intro m
  induction m with
  | nil => simp
  | cons q rest ih =>
    intro acc p hp hpos
    rcases List.mem_cons.mp hp with h1 | h2
    · subst h1
      simp only [List.foldl_cons, if_pos hpos]
      exact collectLifetimesP1_mono now _ rest _
        (List.mem_append_right _ (List.mem_singleton.mpr rfl))
    · simp only [List.foldl_cons]
      exact ih _ p h2 hpos

theorem collectLifetimesP1_pos (now : ℚ) (m : List (String × CodeLine)) :
    ∀ x ∈ collectLifetimesP1 now m, 0 < x := by
  unfold collectLifetimesP1
  refine foldl_preserves (P := fun (acc : List ℚ) => ∀ x ∈ acc, 0 < x) ?_ m []
    (by intro x hx; exact absurd hx (List.not_mem_nil x))
  intro acc kv hacc x hx
  by_cases hpos : 0 < lineLifetime now kv.2
  · rw [if_pos hpos] at hx
    rcases List.mem_append.mp hx with h1 | h2
    · exact hacc x h1
    · rw [List.mem_singleton.mp h2]; exact hpos
  · rw [if_neg hpos] at hx
    exact hacc x hx

theorem p1SortedLifetimes_pos (pattern : String) (now : ℚ) (commits : List Commit) :
    ∀ x ∈ p1SortedLifetimes pattern now commits, 0 < x := by
  intro x hx
  exact collectLifetimesP1_pos now (replayP1 pattern commits) x
    ((List.perm_insertionSort _ _).mem_iff.mp hx)

/-- C5 amended (the p1 variant behaves as claimed): the lifetime of a record
is deletedAt - createdAt when deletedAt is set and now - createdAt otherwise
(the definition of lineLifetime); the statistical sample contains only
strictly positive lifetimes (records of non-positive lifetime are excluded)
yet contains the lifetime of every positive-lifetime record; and the reported
totalLines counts every record of the replay, excluded or not.  main.go
differs: its filter keeps zero lifetimes and its reported total is the HEAD
tree's line count (see the counterexample). -/
theorem c5_amended_p1_sample_and_total :
    (∀ (now : ℚ) (m : List (String × CodeLine)), ∀ x ∈ collectLifetimesP1 now m, 0 < x) ∧
    (∀ (now : ℚ) (m : List (String × CodeLine)), ∀ p ∈ m,
        0 < lineLifetime now p.2 → lineLifetime now p.2 ∈ collectLifetimesP1 now m) ∧
    (∀ (pattern : String) (now : ℚ) (commits : List Commit),
        collectLifetimesP1 now (replayP1 pattern commits) ≠ [] →
        p1TotalOf (analyzeP1 pattern now commits) = (replayP1 pattern commits).length) := by
  refine ⟨?_, ?_, ?_⟩
  · exact collectLifetimesP1_pos
  · intro now m p hp hpos
    exact collectLifetimesP1_complete now m [] p hp hpos
  · intro pattern now commits h
    unfold analyzeP1
    simp only [if_neg h]
    rfl

/-- One-commit replay producing one open record of positive lifetime. -/
def c5pcommits : List Commit := [⟨"c1", 0, false, [⟨"f.go", "x"⟩], []⟩]

/-- Witness for c5_amended_p1_sample_and_total: a concrete closed record of
lifetime 2 is in the sample, samples only hold positive values, and the
one-record replay reports totalLines 1. -/
theorem c5_amended_p1_sample_and_total_witness :
    (0 < (2 : ℚ)) ∧
    lineLifetime 5 (⟨"x", "f.go", 0, some 2, "c1", 0⟩ : CodeLine) ∈
      collectLifetimesP1 5 [("f.go:x", ⟨"x", "f.go", 0, some 2, "c1", 0⟩)] ∧
    p1TotalOf (analyzeP1 "*" 5 c5pcommits) = (replayP1 "*" c5pcommits).length :=
  ⟨c5_amended_p1_sample_and_total.1 5 [("f.go:x", ⟨"x", "f.go", 0, some 2, "c1", 0⟩)] 2
     (by norm_num [collectLifetimesP1, lineLifetime]),
   c5_amended_p1_sample_and_total.2.1 5 [("f.go:x", ⟨"x", "f.go", 0, some 2, "c1", 0⟩)]
     ("f.go:x", ⟨"x", "f.go", 0, some 2, "c1", 0⟩) (by decide)
     (by norm_num [lineLifetime]),
   c5_amended_p1_sample_and_total.2.2 "*" 5 c5pcommits
     (by norm_num +decide [c5pcommits, collectLifetimesP1, lineLifetime, replayP1,
       p1FirstCommit, p1SnapshotFile, p1SnapshotLine, matchesPattern, splitLines,
       splitLinesAux, isBlankLine, isSpaceChar, setRec, p1Key])⟩

/-- Two commits for the main.go counterexample: the same line is added and
deleted at time 2, leaving a record of lifetime zero. -/
def c5mcommits : List Commit :=
  [⟨"c1", 0, false, [], []⟩,
   ⟨"c2", 2, true, [],
     [⟨some "f.go", some "f.go", [⟨ChunkKind.add, "x"⟩, ⟨ChunkKind.delete, "x"⟩]⟩]⟩]

/-- C5 counterexample (main.go): the zero-lifetime record is kept in the
statistical sample (the sample is [0] and linesWithChanges = 1, where the
claim demands exclusion of non-positive lifetimes), and the reported
totalLinesTracked is 3 — the HEAD tree's line count — although only one
record was ever tracked. -/
theorem c5_counterexample :
    mainLifetimes 7 (analyzeMain "*" 7 [⟨"f.go", "a\nb\nc"⟩] c5mcommits).2 = [0] ∧
    (analyzeMain "*" 7 [⟨"f.go", "a\nb\nc"⟩] c5mcommits).1.linesWithChanges = 1 ∧
    (analyzeMain "*" 7 [⟨"f.go", "a\nb\nc"⟩] c5mcommits).1.totalLinesTracked = 3 ∧
    (analyzeMain "*" 7 [⟨"f.go", "a\nb\nc"⟩] c5mcommits).2.length = 1 := by
  refine ⟨?_, ?_, ?_, ?_⟩ <;>
    norm_num +decide [analyzeMain, c5mcommits, mainCommit, initMainState, treeLineCount,
      mainFileMatch, trimStar, strStarts, strEnds, splitLines, splitLinesAux,
      countEvents, calculateStats, mainLifetimes, calculateSurvivalRate, sortQ,
      mainFilePatch, mainChunk, mainAddLine, mainDeleteLine, mainEqualLine, mainKey,
      isBlankLine, isSpaceChar, lookupRec, updateRec, listSum, zeroMainStats, setRec,
      aliveCount, aliveAt, goTruncToInt, List.insertionSort, List.orderedInsert]

/-!
Claim C6: median = middle of the sorted sample, averaging the two middle
values on even counts.  True of main.go's calculateStats; false of the p1
variant, whose MedianAge is lifetimes[len/2] — the upper middle element —
for every parity.
-/

/-- C6 amended: on a non-empty sample there is a sorted permutation srt of
the lifetime sample such that main.go's medianLifetime is the middle value of
srt for odd counts and the average of the two middle values for even counts,
while the p1 variant's medianAge is the element of srt at index length/2
(the upper middle) regardless of parity. -/
theorem c6_amended_median_of_sorted_sample :
    (∀ (now : ℚ) (histories : List (String × LineHistory)),
        mainLifetimes now histories ≠ [] →
        ∃ srt, srt.Perm (mainLifetimes now histories) ∧ List.Sorted (· ≤ ·) srt ∧
          (calculateStats now histories).medianLifetime =
            (if srt.length % 2 = 0 then (srt.getD (srt.length / 2 - 1) 0 + srt.getD (srt.length / 2) 0) / 2
             else srt.getD (srt.length / 2) 0)) ∧
    (∀ (pattern : String) (now : ℚ) (commits : List Commit),
        collectLifetimesP1 now (replayP1 pattern commits) ≠ [] →
        ∃ srt, srt.Perm (collectLifetimesP1 now (replayP1 pattern commits)) ∧
          List.Sorted (· ≤ ·) srt ∧
          p1MedianOf (analyzeP1 pattern now commits) = srt.getD (srt.length / 2) 0) := by
  constructor
  · intro now histories h
    refine ⟨sortQ (mainLifetimes now histories), List.perm_insertionSort _ _,
      List.sorted_insertionSort _ _, ?_⟩
    simp only [calculateStats]
    rw [if_neg h]
  · intro pattern now commits h
    refine ⟨sortQ (collectLifetimesP1 now (replayP1 pattern commits)),
      List.perm_insertionSort _ _, List.sorted_insertionSort _ _, ?_⟩
    simp only [analyzeP1]
    rw [if_neg h]
    rfl

/-- Witness for c6_amended_median_of_sorted_sample at a one-record map and a
one-commit replay. -/
theorem c6_amended_median_of_sorted_sample_witness :
    (∃ srt, srt.Perm (mainLifetimes 1 [("f.go:1:x", (⟨"f.go", "x", [], 0, 1, none⟩ : LineHistory))]) ∧
      List.Sorted (· ≤ ·) srt ∧
      (calculateStats 1 [("f.go:1:x", (⟨"f.go", "x", [], 0, 1, none⟩ : LineHistory))]).medianLifetime =
        (if srt.length % 2 = 0 then (srt.getD (srt.length / 2 - 1) 0 + srt.getD (srt.length / 2) 0) / 2
         else srt.getD (srt.length / 2) 0)) ∧
    (∃ srt, srt.Perm (collectLifetimesP1 5 (replayP1 "*" c5pcommits)) ∧
      List.Sorted (· ≤ ·) srt ∧
      p1MedianOf (analyzeP1 "*" 5 c5pcommits) = srt.getD (srt.length / 2) 0) :=
  ⟨c6_amended_median_of_sorted_sample.1 1 [("f.go:1:x", ⟨"f.go", "x", [], 0, 1, none⟩)]
     (by norm_num [mainLifetimes]),
   c6_amended_median_of_sorted_sample.2 "*" 5 c5pcommits
     (by norm_num +decide [c5pcommits, collectLifetimesP1, lineLifetime, replayP1,
       p1FirstCommit, p1SnapshotFile, p1SnapshotLine, matchesPattern, splitLines,
       splitLinesAux, isBlankLine, isSpaceChar, setRec, p1Key])⟩

/-- Two commits giving the p1 variant the even-size sorted sample [1, 5]:
x lives from 0 to 1, y stays alive until now = 5. -/
def c6commits : List Commit :=
  [⟨"c1", 0, false, [⟨"f.go", "x\ny"⟩], []⟩,
   ⟨"c2", 1, true, [], [⟨some "f.go", some "f.go", [⟨ChunkKind.delete, "x"⟩]⟩]⟩]

/-- C6 counterexample: on the even-size sorted sample [1, 5] the p1 variant
reports medianAge 5 (the upper middle element), not the claimed average
(1 + 5) / 2 = 3 of the two middle values. -/
theorem c6_counterexample :
    p1MedianOf (analyzeP1 "*" 5 c6commits) = 5 ∧ ((1 : ℚ) + 5) / 2 ≠ 5 := by
  constructor
  · norm_num +decide [c6commits, p1MedianOf, analyzeP1, collectLifetimesP1, lineLifetime,
      replayP1, p1FirstCommit, p1SnapshotFile, p1SnapshotLine, p1Commit, p1FilePatch,
      p1Chunk, p1DeleteLine, p1AddLine, p1Key, matchesPattern, diffPath, splitLines,
      splitLinesAux, isBlankLine, isSpaceChar, lookupRec, setRec, updateRec, sortQ,
      List.insertionSort, List.orderedInsert]
  · norm_num

/-!
Claim C9: both variants' survival curves are non-increasing in the sampled
age.
-/

/-- The survival curve a p1 replay produces (the survivalRate field of a
successful analyzeP1 run, see the second conjunct of the claim theorem). -/
def p1Curve (pattern : String) (now : ℚ) (commits : List Commit) : List ℚ :=
  survivalRateP1 (p1SortedLifetimes pattern now commits)

/-- survivalRate of a successful p1 analysis ([] on failure). -/
def p1CurveOf (r : Except String P1Stats) : List ℚ :=
  match r with
  | Except.ok s => s.survivalRate
  | Except.error _ => []

theorem survivalRateP1_getD (l : List ℚ) (i : ℕ) (hi : i < 100) :
    (survivalRateP1 l).getD i 0 =
      ((l.countP (fun lt => p1TimePoint l i ≤ lt) : ℕ) : ℚ) / (l.length : ℚ) := by
  unfold survivalRateP1
  have hlen : i < ((List.range 100).map (fun i =>
      ((l.countP (fun lt => p1TimePoint l i ≤ lt) : ℕ) : ℚ) / (l.length : ℚ))).length := by
    simpa using hi
  rw [List.getD_eq_getElem _ _ hlen, List.getElem_map, List.getElem_range]

theorem p1MaxAge_nonneg (pattern : String) (now : ℚ) (commits : List Commit) :
    0 ≤ p1MaxAge (p1SortedLifetimes pattern now commits) := by
  rcases eq_or_ne (p1SortedLifetimes pattern now commits) [] with h | h
  · simp [p1MaxAge, h]
  · have hlen : (p1SortedLifetimes pattern now commits).length - 1 <
        (p1SortedLifetimes pattern now commits).length := by
      have : 0 < (p1SortedLifetimes pattern now commits).length := List.length_pos.mpr h
      omega
    have hmem : (p1SortedLifetimes pattern now commits).getD
        ((p1SortedLifetimes pattern now commits).length - 1) 0 ∈
        p1SortedLifetimes pattern now commits := by
      rw [List.getD_eq_getElem _ _ hlen]
      exact List.getElem_mem _
    exact le_of_lt (p1SortedLifetimes_pos pattern now commits _ hmem)

theorem goTruncToInt_mono (a b : ℚ) (hab : a ≤ b) : goTruncToInt a ≤ goTruncToInt b := by
  unfold goTruncToInt
  split_ifs with ha hb hb
  · exact Int.floor_le_floor hab
  · exact absurd (le_trans ha hab) hb
  · have h1 : 0 ≤ ⌊b⌋ := Int.floor_nonneg.mpr hb
    have h2 : 0 ≤ ⌊-a⌋ := Int.floor_nonneg.mpr (by linarith [not_le.mp ha])
    omega
  · have : -b ≤ -a := by linarith
    have := Int.floor_le_floor this
    omega

theorem aliveAt_mono (now : ℚ) (kv : String × LineHistory) (t t' : ℚ)
    (h : t ≤ t') (ha : aliveAt now t' kv = true) : aliveAt now t kv = true := by
  unfold aliveAt at ha ⊢
  simp only [Bool.and_eq_true, decide_eq_true_eq] at ha ⊢
  obtain ⟨h1, h2⟩ := ha
  refine ⟨le_trans h h1, ?_⟩
  cases hd : kv.2.deletedAt with
  | none => simp
  | some d =>
    rw [hd] at h2
    simp only [decide_eq_true_eq] at h2 ⊢
    exact lt_of_le_of_lt h h2

theorem survFoldInvariant (g : ℚ → ℚ) (hg : ∀ a b, a ≤ b → g b ≤ g a) :
    ∀ (ts : List ℚ) (M : List (ℤ × ℚ)),
      List.Sorted (· ≤ ·) ts →
      (∀ p ∈ M, ∃ t0, p.1 = goTruncToInt t0 ∧ p.2 = g t0 ∧ ∀ t ∈ ts, t0 ≤ t) →
      (∀ p ∈ M, ∀ q ∈ M, p.1 < q.1 → q.2 ≤ p.2) →
      ∀ p ∈ ts.foldl (fun m t => setRec m (goTruncToInt t) (g t)) M,
        ∀ q ∈ ts.foldl (fun m t => setRec m (goTruncToInt t) (g t)) M,
          p.1 < q.1 → q.2 ≤ p.2 := by
  intro ts
  induction ts with
  | nil =>
    intro M _ _ hpair
    simpa using hpair
  | cons t rest ih =>
    intro M hsort hwit hpair
    simp only [List.foldl_cons]
    have hle : ∀ t' ∈ rest, t ≤ t' := List.rel_of_sorted_cons hsort
    refine ih (setRec M (goTruncToInt t) (g t)) hsort.of_cons ?_ ?_
    · intro p hp
      rcases mem_setRec M _ _ p hp with h1 | h2
      · exact ⟨t, by rw [h1], by rw [h1], hle⟩
      · obtain ⟨t0, ht0a, ht0b, ht0c⟩ := hwit p h2
        exact ⟨t0, ht0a, ht0b, fun t' ht' => ht0c t' (List.mem_cons_of_mem _ ht')⟩
    · intro p hp q hq hlt
      rcases mem_setRec M _ _ p hp with hp1 | hp2 <;>
        rcases mem_setRec M _ _ q hq with hq1 | hq2
      · rw [hp1, hq1] at hlt
        exact absurd hlt (lt_irrefl _)
      · obtain ⟨t0, ht0a, _, ht0c⟩ := hwit q hq2
        have ht0t : t0 ≤ t := ht0c t (List.mem_cons_self _ _)
        rw [hp1] at hlt
        rw [ht0a] at hlt
        exact absurd (goTruncToInt_mono t0 t ht0t) (not_le.mpr hlt)
      · obtain ⟨t0, _, ht0b, ht0c⟩ := hwit p hp2
        have ht0t : t0 ≤ t := ht0c t (List.mem_cons_self _ _)
        rw [hq1, ht0b]
        exact hg t0 t ht0t
      · exact hpair p hp2 q hq2 hlt

/-- C9: both survival curves are non-increasing as the sampled age increases.
For the p1 variant: for sample indices i <= j < 100 (whose sampled ages are
maxAge * i / 100 <= maxAge * j / 100) the fraction at j is at most the
fraction at i; the second conjunct identifies p1Curve with the survivalRate
field every successful analyzeP1 run reports.  For main.go: any two entries
of the survival map with increasing truncated-age keys have non-increasing
fractions. -/
theorem c9_survival_curve_non_increasing :
    (∀ (pattern : String) (now : ℚ) (commits : List Commit) (i j : ℕ),
        i ≤ j → j < 100 →
        (p1Curve pattern now commits).getD j 0 ≤ (p1Curve pattern now commits).getD i 0) ∧
    (∀ (pattern : String) (now : ℚ) (commits : List Commit),
        collectLifetimesP1 now (replayP1 pattern commits) ≠ [] →
        p1CurveOf (analyzeP1 pattern now commits) = p1Curve pattern now commits) ∧
    (∀ (now : ℚ) (histories : List (String × LineHistory)) (p q : ℤ × ℚ),
        p ∈ calculateSurvivalRate now histories →
        q ∈ calculateSurvivalRate now histories →
        p.1 < q.1 → q.2 ≤ p.2) := by
  refine ⟨?_, ?_, ?_⟩
  · intro pattern now commits i j hij hj
    have hi : i < 100 := lt_of_le_of_lt hij hj
    unfold p1Curve
    rw [survivalRateP1_getD _ i hi, survivalRateP1_getD _ j hj]
    have hpoint : p1TimePoint (p1SortedLifetimes pattern now commits) i ≤
        p1TimePoint (p1SortedLifetimes pattern now commits) j := by
      unfold p1TimePoint
      have hc : (i : ℚ) ≤ (j : ℚ) := Nat.cast_le.mpr hij
      have := mul_le_mul_of_nonneg_left hc (p1MaxAge_nonneg pattern now commits)
      exact div_le_div_of_nonneg_right this (by norm_num)
    have hcount : (p1SortedLifetimes pattern now commits).countP
        (fun lt => p1TimePoint (p1SortedLifetimes pattern now commits) j ≤ lt) ≤
        (p1SortedLifetimes pattern now commits).countP
        (fun lt => p1TimePoint (p1SortedLifetimes pattern now commits) i ≤ lt) := by
      refine List.countP_mono_left ?_
      intro x _ hx
      simp only [decide_eq_true_eq] at hx ⊢
      exact le_trans hpoint hx
    exact div_le_div_of_nonneg_right (Nat.cast_le.mpr hcount) (Nat.cast_nonneg _)
  · intro pattern now commits h
    simp only [analyzeP1]
    rw [if_neg h]
    rfl
  · intro now histories p q hp hq hlt
    simp only [calculateSurvivalRate] at hp hq
    refine survFoldInvariant
      (fun t => ((aliveCount now histories t : ℕ) : ℚ) / (histories.length : ℚ)) ?_
      (sortQ (mainLifetimes now histories)) [] (List.sorted_insertionSort _ _)
      (by simp) (by simp) p hp q hq hlt
    intro a b hab
    refine div_le_div_of_nonneg_right (Nat.cast_le.mpr ?_) (Nat.cast_nonneg _)
    refine List.countP_mono_left ?_
    intro kv _ hkv
    exact aliveAt_mono now kv a b hab hkv

/-- Concrete two-record map for the main.go half of the C9 witness: one
record deleted at age 1, one still alive at age 3. -/
def c9histories : List (String × LineHistory) :=
  [("f.go:1:x", ⟨"f.go", "x", [], 0, 0, some 1⟩),
   ("f.go:1:y", ⟨"f.go", "y", [], 0, 0, none⟩)]

/-- Witness for c9_survival_curve_non_increasing: concrete instances of all
three conjuncts. -/
theorem c9_survival_curve_non_increasing_witness :
    ((p1Curve "*" 5 c5pcommits).getD 1 0 ≤ (p1Curve "*" 5 c5pcommits).getD 0 0) ∧
    p1CurveOf (analyzeP1 "*" 5 c5pcommits) = p1Curve "*" 5 c5pcommits ∧
    ((3 : ℤ), (1 : ℚ) / 2).2 ≤ ((1 : ℤ), (1 : ℚ) / 2).2 :=
  ⟨c9_survival_curve_non_increasing.1 "*" 5 c5pcommits 0 1 (by decide) (by decide),
   c9_survival_curve_non_increasing.2.1 "*" 5 c5pcommits
     (by norm_num +decide [c5pcommits, collectLifetimesP1, lineLifetime, replayP1,
       p1FirstCommit, p1SnapshotFile, p1SnapshotLine, matchesPattern, splitLines,
       splitLinesAux, isBlankLine, isSpaceChar, setRec, p1Key]),
   c9_survival_curve_non_increasing.2.2 3 c9histories (1, 1/2) (3, 1/2)
     (by norm_num +decide [c9histories, calculateSurvivalRate, mainLifetimes, sortQ,
       List.insertionSort, List.orderedInsert, setRec, goTruncToInt, aliveCount,
       aliveAt])
     (by norm_num +decide [c9histories, calculateSurvivalRate, mainLifetimes, sortQ,
       List.insertionSort, List.orderedInsert, setRec, goTruncToInt, aliveCount,
       aliveAt])
     (by decide)⟩

/-!
Claim C7: the claim says at most one Deleted event per record, always last.
main.go appends a Deleted event every time an existing record's content shows
up in a deleted chunk — including re-deletions — so a record can accumulate
several Deleted events.  What does hold: every record's event list is one
Created event followed by Modified events followed by Deleted events (so
nothing ever follows the Deleted suffix, but that suffix can be longer than
one).  The p1 variant's records carry no event list at all.
-/

/-- Recognizes a run of Deleted events. -/
def deletedOnly : List ChangeEvent → Bool
  | [] => true
  | e :: es => e.kind == ChangeType.deleted && deletedOnly es

/-- Recognizes Modified events followed by Deleted events. -/
def modsThenDels : List ChangeEvent → Bool
  | [] => true
  | e :: es =>
    if e.kind == ChangeType.modified then modsThenDels es else deletedOnly (e :: es)

/-- Recognizes the record shape: one Created event first, then Modified
events, then Deleted events. -/
def eventShapeOK : List ChangeEvent → Bool
  | [] => false
  | e :: es => e.kind == ChangeType.created && modsThenDels es

/-- No Deleted event at all. -/
def noDeletedEvent (l : List ChangeEvent) : Bool :=
  l.all (fun e => !(e.kind == ChangeType.deleted))

/-- The record invariant main.go maintains: well-shaped event list, and an
open record has no Deleted event yet. -/
def WFHist (h : LineHistory) : Prop :=
  eventShapeOK h.changes = true ∧ (h.deletedAt = none → noDeletedEvent h.changes = true)

theorem deletedOnly_append_del (l : List ChangeEvent) (e : ChangeEvent)
    (he : e.kind = ChangeType.deleted) (hl : deletedOnly l = true) :
    deletedOnly (l ++ [e]) = true := by
  induction l with
  | nil => simp [deletedOnly, he]
  | cons f fs ih =>
    simp only [deletedOnly, Bool.and_eq_true] at hl
    simp only [List.cons_append, deletedOnly, Bool.and_eq_true]
    exact ⟨hl.1, ih hl.2⟩

theorem modsThenDels_append_del (l : List ChangeEvent) (e : ChangeEvent)
    (he : e.kind = ChangeType.deleted) (hl : modsThenDels l = true) :
    modsThenDels (l ++ [e]) = true := by
  induction l with
  | nil => simp [modsThenDels, deletedOnly, he]
  | cons f fs ih =>
    simp only [modsThenDels] at hl
    simp only [List.cons_append, modsThenDels]
    by_cases hf : (f.kind == ChangeType.modified) = true
    · rw [if_pos hf] at hl
      rw [if_pos hf]
      exact ih hl
    · rw [if_neg hf] at hl
      rw [if_neg hf]
      have := deletedOnly_append_del (f :: fs) e he hl
      simpa using this

theorem modsThenDels_append_mod (l : List ChangeEvent) (e : ChangeEvent)
    (he : e.kind = ChangeType.modified) (hnd : noDeletedEvent l = true)
    (hl : modsThenDels l = true) : modsThenDels (l ++ [e]) = true := by
  induction l with
  | nil => simp [modsThenDels, he]
  | cons f fs ih =>
    simp only [noDeletedEvent, List.all_cons, Bool.and_eq_true] at hnd
    simp only [modsThenDels] at hl
    simp only [List.cons_append, modsThenDels]
    by_cases hf : (f.kind == ChangeType.modified) = true
    · rw [if_pos hf] at hl
      rw [if_pos hf]
      exact ih hnd.2 hl
    · rw [if_neg hf] at hl
      simp only [deletedOnly, Bool.and_eq_true] at hl
      have : (f.kind == ChangeType.deleted) = false := by
        simpa using hnd.1
      rw [this] at hl
      exact absurd hl.1 (by simp)

theorem noDeletedEvent_append_mod (l : List ChangeEvent) (e : ChangeEvent)
    (he : e.kind = ChangeType.modified) (hl : noDeletedEvent l = true) :
    noDeletedEvent (l ++ [e]) = true := by
  simp only [noDeletedEvent, List.all_append, List.all_cons, Bool.and_eq_true] at hl ⊢
  exact ⟨hl, by simp [he], rfl⟩

theorem eventShapeOK_append_del (l : List ChangeEvent) (e : ChangeEvent)
    (he : e.kind = ChangeType.deleted) (hl : eventShapeOK l = true) :
    eventShapeOK (l ++ [e]) = true := by
  cases l with
  | nil => exact absurd hl (by simp [eventShapeOK])
  | cons f fs =>
    simp only [eventShapeOK, Bool.and_eq_true] at hl
    simp only [List.cons_append, eventShapeOK, Bool.and_eq_true]
    exact ⟨hl.1, modsThenDels_append_del fs e he hl.2⟩

theorem eventShapeOK_append_mod (l : List ChangeEvent) (e : ChangeEvent)
    (he : e.kind = ChangeType.modified) (hnd : noDeletedEvent l = true)
    (hl : eventShapeOK l = true) : eventShapeOK (l ++ [e]) = true := by
  cases l with
  | nil => exact absurd hl (by simp [eventShapeOK])
  | cons f fs =>
    simp only [noDeletedEvent, List.all_cons, Bool.and_eq_true] at hnd
    simp only [eventShapeOK, Bool.and_eq_true] at hl
    simp only [List.cons_append, eventShapeOK, Bool.and_eq_true]
    exact ⟨hl.1, modsThenDels_append_mod fs e he hnd.2 hl.2⟩

theorem WFHist_delete (t : ℚ) (h : LineHistory) (hw : WFHist h) :
    WFHist { h with deletedAt := some t,
                    changes := h.changes ++ [⟨t, ChangeType.deleted, "", 0⟩] } := by
  refine ⟨eventShapeOK_append_del _ _ rfl hw.1, ?_⟩
  intro hc
  exact absurd hc (by simp)

theorem WFHist_equal (t : ℚ) (line : String) (h : LineHistory) (hw : WFHist h) :
    WFHist (if h.deletedAt = none then
      { h with lastSeen := t, changes := h.changes ++ [⟨t, ChangeType.modified, line, 0⟩] }
    else { h with lastSeen := t }) := by
  split_ifs with hd
  · have hnd := hw.2 hd
    exact ⟨eventShapeOK_append_mod _ _ rfl hnd hw.1,
      fun _ => noDeletedEvent_append_mod _ _ rfl hnd⟩
  · exact ⟨hw.1, fun hc => absurd hc hd⟩

theorem mainAddLine_WF (t : ℚ) (path : String) (m : List (String × LineHistory))
    (line : String) (hm : ∀ p ∈ m, WFHist p.2) :
    ∀ p ∈ mainAddLine t path m line, WFHist p.2 := by
  unfold mainAddLine
  split
  · exact hm
  · split
    · exact hm
    · intro p hp
      rcases List.mem_append.mp hp with h1 | h2
      · exact hm p h1
      · rw [List.mem_singleton.mp h2]
        exact ⟨by simp [eventShapeOK, modsThenDels], fun _ => by simp [noDeletedEvent]⟩

theorem mainDeleteLine_WF (t : ℚ) (path : String) (m : List (String × LineHistory))
    (line : String) (hm : ∀ p ∈ m, WFHist p.2) :
    ∀ p ∈ mainDeleteLine t path m line, WFHist p.2 := by
  unfold mainDeleteLine
  split
  · exact hm
  · split
    · exact hm
    · exact forall_mem_updateRec (P := WFHist) _ m _ hm (fun x hx => WFHist_delete t x hx)

theorem mainEqualLine_WF (t : ℚ) (path : String) (m : List (String × LineHistory))
    (line : String) (hm : ∀ p ∈ m, WFHist p.2) :
    ∀ p ∈ mainEqualLine t path m line, WFHist p.2 := by
  unfold mainEqualLine
  split
  · exact hm
  · split
    · exact hm
    · exact forall_mem_updateRec (P := WFHist) _ m _ hm (fun x hx => WFHist_equal t line x hx)

theorem mainChunk_WF (t : ℚ) (path : String) (st : MainState) (ch : Chunk)
    (hm : ∀ p ∈ st.lineHistories, WFHist p.2) :
    ∀ p ∈ (mainChunk t path st ch).lineHistories, WFHist p.2 := by
  unfold mainChunk
  cases hk : ch.kind <;>
    simp only [] <;>
    first
      | exact foldl_preserves
          (P := fun (m : List (String × LineHistory)) => ∀ p ∈ m, WFHist p.2)
          (fun m line hm' => mainAddLine_WF t path m line hm') _ _ hm
      | skip
  all_goals
    first
      | exact foldl_preserves
          (P := fun (m : List (String × LineHistory)) => ∀ p ∈ m, WFHist p.2)
          (fun m line hm' => mainDeleteLine_WF t path m line hm') _ _ hm
      | exact foldl_preserves
          (P := fun (m : List (String × LineHistory)) => ∀ p ∈ m, WFHist p.2)
          (fun m line hm' => mainEqualLine_WF t path m line hm') _ _ hm

theorem mainFilePatch_WF (t : ℚ) (pattern : String) (st : MainState) (fd : FileDiff)
    (hm : ∀ p ∈ st.lineHistories, WFHist p.2) :
    ∀ p ∈ (mainFilePatch t pattern st fd).lineHistories, WFHist p.2 := by
  unfold mainFilePatch
  split
  · exact hm
  · split
    · exact foldl_preserves
        (P := fun (s : MainState) => ∀ p ∈ s.lineHistories, WFHist p.2)
        (fun s ch hs => mainChunk_WF t _ s ch hs) _ st hm
    · exact hm

theorem mainCommit_WF (pattern : String) (st : MainState) (c : Commit)
    (hm : ∀ p ∈ st.lineHistories, WFHist p.2) :
    ∀ p ∈ (mainCommit pattern st c).lineHistories, WFHist p.2 := by
  unfold mainCommit
  split
  · exact foldl_preserves
      (P := fun (s : MainState) => ∀ p ∈ s.lineHistories, WFHist p.2)
      (fun s fd hs => mainFilePatch_WF c.time pattern s fd hs) _ _ hm
  · exact hm

/-- C7 amended: every record reachable by any main.go replay has a
well-shaped event sequence — exactly one Created event (always first),
followed by zero or more Modified events, followed by zero or more Deleted
events.  In particular no Modified or Created event ever follows a Deleted
event; but the Deleted suffix can hold more than one event (see the
counterexample), so the claimed "at most one Deleted event" does not hold. -/
theorem c7_amended_event_shape (pattern : String) (now : ℚ)
    (headTree : List FileEntry) (commits : List Commit) :
    ∀ p ∈ (analyzeMain pattern now headTree commits).2, eventShapeOK p.2.changes = true := by
  intro p hp
  have hall : ∀ q ∈ (commits.foldl (mainCommit pattern) initMainState).lineHistories,
      WFHist q.2 := by
    refine foldl_preserves
      (P := fun (s : MainState) => ∀ q ∈ s.lineHistories, WFHist q.2)
      (fun s c hs => mainCommit_WF pattern s c hs) commits initMainState ?_
    intro q hq
    exact absurd hq (List.not_mem_nil q)
  exact (hall p hp).1

/-- Three commits for the C7 counterexample: commit c1 adds the line x twice
(one record, since identity is content-keyed), commit c2 deletes both copies
— the single record receives two Deleted events in one replay. -/
def c7commits : List Commit :=
  [⟨"c0", 0, false, [], []⟩,
   ⟨"c1", 1, true, [], [⟨some "f.go", some "f.go", [⟨ChunkKind.add, "x\nx"⟩]⟩]⟩,
   ⟨"c2", 2, true, [], [⟨some "f.go", some "f.go", [⟨ChunkKind.delete, "x\nx"⟩]⟩]⟩]

/-- C7 counterexample: the replayed record map holds one record whose event
sequence is Created, Deleted, Deleted — two Deleted events, where the claim
allows at most one. -/
theorem c7_counterexample :
    (analyzeMain "*" 9 [] c7commits).2 =
      [("f.go:1:x", ⟨"f.go", "x",
        [⟨1, ChangeType.created, "x", 0⟩, ⟨2, ChangeType.deleted, "", 0⟩,
         ⟨2, ChangeType.deleted, "", 0⟩], 1, 1, some 2⟩)] ∧
    ((analyzeMain "*" 9 [] c7commits).2.map
      (fun kv => kv.2.changes.countP (fun e => e.kind == ChangeType.deleted))) = [2] := by
  constructor <;> decide

/-- Witness for c7_amended_event_shape: the record produced by the
counterexample replay (with its two Deleted events) is well-shaped. -/
theorem c7_amended_event_shape_witness :
    eventShapeOK (("f.go:1:x", (⟨"f.go", "x",
        [⟨1, ChangeType.created, "x", 0⟩, ⟨2, ChangeType.deleted, "", 0⟩,
         ⟨2, ChangeType.deleted, "", 0⟩], 1, 1, some 2⟩ : LineHistory)) :
        String × LineHistory).2.changes = true :=
  c7_amended_event_shape "*" 9 [] c7commits
    ("f.go:1:x", ⟨"f.go", "x",
      [⟨1, ChangeType.created, "x", 0⟩, ⟨2, ChangeType.deleted, "", 0⟩,
       ⟨2, ChangeType.deleted, "", 0⟩], 1, 1, some 2⟩)
    (by decide)

/-!
Claim C8: the claim (and the README's example output, where Created equals
Total Lines Tracked) requires changeFrequency["Created"] == totalTracked.
main.go re-tallies the event lists of every record once per commit without
ever resetting the counters (lines 304-316 run inside the commit loop), so a
record created at the i-th commit is counted once for every commit from i on:
the final Created count strictly exceeds the number of tracked records as
soon as records survive across more than one commit iteration.
-/

/-- Replay exercising the tally bug: c1 adds x, c2 adds y, no blank-line or
pattern exclusions anywhere. -/
def c8commits : List Commit :=
  [⟨"c0", 0, false, [], []⟩,
   ⟨"c1", 1, true, [], [⟨some "f.go", some "f.go", [⟨ChunkKind.add, "x"⟩]⟩]⟩,
   ⟨"c2", 2, true, [], [⟨some "f.go", some "f.go", [⟨ChunkKind.add, "y"⟩]⟩]⟩]

/-- C8: evaluation at the failing input.  Two records are tracked (and the
HEAD tree holds their two lines, so totalTracked = 2 under either reading),
but the reported Created count is 3: the record of x is tallied again by the
commit that added y.  The claimed invariant Created == totalTracked fails on
an exclusion-free replay. -/
theorem c8_created_tally_eval :
    (analyzeMain "*" 9 [⟨"f.go", "x\ny"⟩] c8commits).1.createdCount = 3 ∧
    (analyzeMain "*" 9 [⟨"f.go", "x\ny"⟩] c8commits).1.totalLinesTracked = 2 ∧
    (analyzeMain "*" 9 [⟨"f.go", "x\ny"⟩] c8commits).2.length = 2 := by
  refine ⟨?_, ?_, ?_⟩ <;> decide

/-!
Claim C1: halfLife = smallest sampled age with survival fraction <= 0.5,
falling back to the median on a curve that never crosses.  Exactly what the
p1 variant computes (with its own median, lifetimes[len/2]); main.go instead
computes HalfLife = median * log 2 unconditionally, which violates the claim
(see the counterexample).
-/

/-- halfLife of a successful p1 analysis (0 on failure). -/
def p1HalfLifeOf (r : Except String P1Stats) : ℚ :=
  match r with
  | Except.ok s => s.halfLife
  | Except.error _ => 0

theorem halfLifeLoop_spec (a : ℚ) :
    ∀ (rs : List ℚ) (i : ℕ),
      ((∀ r ∈ rs, 1 / 2 < r) ∧ halfLifeLoop a i rs = 0) ∨
      (∃ j, j < rs.length ∧ rs.getD j 0 ≤ 1 / 2 ∧
        (∀ k, k < j → 1 / 2 < rs.getD k 0) ∧
        halfLifeLoop a i rs = a * (((i + j : ℕ) : ℚ)) / 100) := by
  intro rs
  induction rs with
  | nil =>
    intro i
    left
    exact ⟨by simp, rfl⟩
  | cons r rest ih =>
    intro i
    by_cases hr : r ≤ 1 / 2
    · right
      refine ⟨0, by simp, by simpa using hr, by simp, ?_⟩
      simp only [halfLifeLoop, if_pos hr, Nat.add_zero]
    · rcases ih (i + 1) with ⟨hall, hval⟩ | ⟨j, hj, hjle, hjmin, hval⟩
      · left
        refine ⟨?_, ?_⟩
        · intro x hx
          rcases List.mem_cons.mp hx with h1 | h2
          · rw [h1]; exact not_le.mp hr
          · exact hall x h2
        · simp only [halfLifeLoop, if_neg hr]
          exact hval
      · right
        refine ⟨j + 1, by simpa using hj, by simpa using hjle, ?_, ?_⟩
        · intro k hk
          cases k with
          | zero => simpa using not_le.mp hr
          | succ k' =>
            have := hjmin k' (by omega)
            simpa using this
        · simp only [halfLifeLoop, if_neg hr]
          rw [hval]
          have : i + 1 + j = i + (j + 1) := by omega
          rw [this]

theorem p1MaxAge_mem (l : List ℚ) (hne : l ≠ []) : p1MaxAge l ∈ l := by
  have hlen : l.length - 1 < l.length := by
    have : 0 < l.length := List.length_pos.mpr hne
    omega
  unfold p1MaxAge
  rw [List.getD_eq_getElem _ _ hlen]
  exact List.getElem_mem _

theorem survivalRateP1_getD_zero (l : List ℚ) (hne : l ≠ [])
    (hpos : ∀ x ∈ l, 0 < x) : (survivalRateP1 l).getD 0 0 = 1 := by
  rw [survivalRateP1_getD l 0 (by norm_num)]
  have hcount : l.countP (fun lt => p1TimePoint l 0 ≤ lt) = l.length := by
    rw [List.countP_eq_length]
    intro x hx
    simp only [decide_eq_true_eq]
    unfold p1TimePoint
    simp only [Nat.cast_zero, mul_zero, zero_div]
    exact le_of_lt (hpos x hx)
  rw [hcount]
  have hn : ((l.length : ℕ) : ℚ) ≠ 0 := by
    simp only [ne_eq, Nat.cast_eq_zero]
    intro h0
    exact hne (List.length_eq_zero.mp h0)
  exact div_self hn

theorem halfLifeP1_spec (l : List ℚ) (hne : l ≠ []) (hpos : ∀ x ∈ l, 0 < x) :
    (∃ i, i < 100 ∧ (survivalRateP1 l).getD i 0 ≤ 1 / 2 ∧
      (∀ k, k < i → 1 / 2 < (survivalRateP1 l).getD k 0) ∧
      halfLifeP1 l = p1TimePoint l i) ∨
    ((∀ i, i < 100 → 1 / 2 < (survivalRateP1 l).getD i 0) ∧
      halfLifeP1 l = l.getD (l.length / 2) 0) := by
  have hlen : (survivalRateP1 l).length = 100 := by simp [survivalRateP1]
  rcases halfLifeLoop_spec (p1MaxAge l) (survivalRateP1 l) 0 with
    ⟨hall, hval⟩ | ⟨j, hj, hjle, hjmin, hval⟩
  · right
    refine ⟨?_, ?_⟩
    · intro i hi
      have hi' : i < (survivalRateP1 l).length := by omega
      have hmem : (survivalRateP1 l).getD i 0 ∈ survivalRateP1 l := by
        rw [List.getD_eq_getElem _ _ hi']
        exact List.getElem_mem _
      exact hall _ hmem
    · unfold halfLifeP1
      rw [hval]
      simp
  · left
    rw [hlen] at hj
    have hrate0 : (survivalRateP1 l).getD 0 0 = 1 := survivalRateP1_getD_zero l hne hpos
    have hj1 : 1 ≤ j := by
      rcases Nat.eq_zero_or_pos j with h0 | h1
      · rw [h0, hrate0] at hjle
        norm_num at hjle
      · exact h1
    have hmax : 0 < p1MaxAge l := hpos _ (p1MaxAge_mem l hne)
    have hval' : halfLifeLoop (p1MaxAge l) 0 (survivalRateP1 l) = p1TimePoint l j := by
      rw [hval]
      unfold p1TimePoint
      norm_num
    have hnz : p1TimePoint l j ≠ 0 := by
      unfold p1TimePoint
      have hjq : (0 : ℚ) < (j : ℚ) := by
        have : (0 : ℕ) < j := hj1
        exact_mod_cast this
      positivity
    refine ⟨j, hj, hjle, hjmin, ?_⟩
    unfold halfLifeP1
    rw [hval']
    rw [if_neg hnz]

/-- C1 amended: for every p1 replay with a non-empty lifetime sample, the
computed halfLife is the smallest sampled age (maxAge * i / 100, i < 100) at
which the survival fraction is <= 0.5 (no earlier sample index crosses), and
when no sampled fraction reaches 0.5 it is exactly the variant's reported
median (MedianAge = lifetimes[len/2]).  main.go's HalfLife, by contrast, is
median * log 2 regardless of the curve (see the counterexample). -/
theorem c1_amended_half_life_crossing (pattern : String) (now : ℚ)
    (commits : List Commit)
    (h : collectLifetimesP1 now (replayP1 pattern commits) ≠ []) :
    (∃ i, i < 100 ∧ (p1Curve pattern now commits).getD i 0 ≤ 1 / 2 ∧
      (∀ k, k < i → 1 / 2 < (p1Curve pattern now commits).getD k 0) ∧
      p1HalfLifeOf (analyzeP1 pattern now commits) =
        p1TimePoint (p1SortedLifetimes pattern now commits) i) ∨
    ((∀ i, i < 100 → 1 / 2 < (p1Curve pattern now commits).getD i 0) ∧
      p1HalfLifeOf (analyzeP1 pattern now commits) =
        p1MedianOf (analyzeP1 pattern now commits)) := by
  have hne : p1SortedLifetimes pattern now commits ≠ [] := by
    intro hempty
    apply h
    have hperm := List.perm_insertionSort (fun a b : ℚ => a ≤ b)
      (collectLifetimesP1 now (replayP1 pattern commits))
    have hlen := hperm.length_eq
    rw [show List.insertionSort (fun a b : ℚ => a ≤ b)
      (collectLifetimesP1 now (replayP1 pattern commits)) =
      p1SortedLifetimes pattern now commits from rfl, hempty] at hlen
    exact List.length_eq_zero.mp hlen.symm
  have hpos := p1SortedLifetimes_pos pattern now commits
  have hHL : p1HalfLifeOf (analyzeP1 pattern now commits) =
      halfLifeP1 (p1SortedLifetimes pattern now commits) := by
    simp only [analyzeP1]
    rw [if_neg h]
    rfl
  have hMed : p1MedianOf (analyzeP1 pattern now commits) =
      (p1SortedLifetimes pattern now commits).getD
        ((p1SortedLifetimes pattern now commits).length / 2) 0 := by
    simp only [analyzeP1]
    rw [if_neg h]
    rfl
  rcases halfLifeP1_spec (p1SortedLifetimes pattern now commits) hne hpos with
    ⟨i, hi, hle, hmin, hval⟩ | ⟨hall, hval⟩
  · left
    exact ⟨i, hi, hle, hmin, by rw [hHL]; exact hval⟩
  · right
    exact ⟨hall, by rw [hHL, hMed]; exact hval⟩

/-- Witness for c1_amended_half_life_crossing on the one-record replay (its
curve is constantly 1, so the run lands in the median-fallback branch; the
witness only needs the disjunction). -/
theorem c1_amended_half_life_crossing_witness :
    (∃ i, i < 100 ∧ (p1Curve "*" 5 c5pcommits).getD i 0 ≤ 1 / 2 ∧
      (∀ k, k < i → 1 / 2 < (p1Curve "*" 5 c5pcommits).getD k 0) ∧
      p1HalfLifeOf (analyzeP1 "*" 5 c5pcommits) =
        p1TimePoint (p1SortedLifetimes "*" 5 c5pcommits) i) ∨
    ((∀ i, i < 100 → 1 / 2 < (p1Curve "*" 5 c5pcommits).getD i 0) ∧
      p1HalfLifeOf (analyzeP1 "*" 5 c5pcommits) =
        p1MedianOf (analyzeP1 "*" 5 c5pcommits)) :=
  c1_amended_half_life_crossing "*" 5 c5pcommits
    (by norm_num +decide [c5pcommits, collectLifetimesP1, lineLifetime, replayP1,
      p1FirstCommit, p1SnapshotFile, p1SnapshotLine, matchesPattern, splitLines,
      splitLinesAux, isBlankLine, isSpaceChar, setRec, p1Key])

/-- Commits for the C1 counterexample against main.go: one line added at
time 1 and still alive at now = 5, so its lifetime is 4. -/
def c1mcommits : List Commit :=
  [⟨"c0", 0, false, [], []⟩,
   ⟨"c1", 1, true, [], [⟨some "f.go", some "f.go", [⟨ChunkKind.add, "x"⟩]⟩]⟩]

/-- C1 counterexample: main.go's survival curve for this replay is [(4, 1)] —
no sampled age has fraction <= 0.5 — so the claim requires halfLife =
medianLifetime = 4; but the computed HalfLife is 4 * log 2, which is not 4
(and is not any sampled crossing age either, there being none). -/
theorem c1_counterexample :
    (analyzeMain "*" 5 [⟨"f.go", "x"⟩] c1mcommits).1.medianLifetime = 4 ∧
    (analyzeMain "*" 5 [⟨"f.go", "x"⟩] c1mcommits).1.survivalRate = [(4, 1)] ∧
    ¬ ((1 : ℚ) ≤ 1 / 2) ∧
    (analyzeMain "*" 5 [⟨"f.go", "x"⟩] c1mcommits).1.halfLife = 4 * log2F ∧
    4 * log2F ≠ (4 : ℚ) := by
  refine ⟨?_, ?_, by norm_num, ?_, by norm_num [log2F]⟩ <;>
    norm_num +decide [analyzeMain, c1mcommits, mainCommit, initMainState, treeLineCount,
      mainFileMatch, trimStar, strStarts, strEnds, splitLines, splitLinesAux,
      countEvents, calculateStats, mainLifetimes, calculateSurvivalRate, sortQ,
      mainFilePatch, mainChunk, mainAddLine, mainDeleteLine, mainEqualLine, mainKey,
      isBlankLine, isSpaceChar, lookupRec, updateRec, listSum, setRec,
      aliveCount, aliveAt, goTruncToInt, List.insertionSort, List.orderedInsert, log2F]
